import Mathlib

/-!
Verification of the mexican-law-mcp ingestion pipeline
=====================================================

Shallow embedding of the ingestion pipeline of the `mexican-law-mcp`
repository: the rate-limited fetch client (`src/scripts/lib/fetcher.ts`),
the binary-file fallback chain (`fetchLawFile`), the PDF-text normalizer
(`cleanPdfText`), the structural extractor (`extractArticlesFromText`,
`extractTransitoryFromText`, `parseMexicanText`), the HTML extractor
(`stripHtml`, `extractArticles`, `extractTransitoryArticles`,
`parseMexicanHtml`) and the document assembler (`createFallbackSeed` and
the per-law decision logic of `fetchAndParseLaws`).

Text is modelled as `List Char` (named `Str`).  JavaScript string and
regex operations are translated into explicit recursive functions; every
function is structurally recursive (scanning loops take an explicit fuel
argument that callers instantiate with the string length, which the scan
can never exhaust since every step consumes at least one character).
-/

/-- Text is a list of characters; JS strings are sequences of UTF-16ish
code points, modelled here by Lean `Char` scalars. -/
abbrev Str := List Char

/-- Convert a Lean string literal to the `Str` model. -/
def str (s : String) : Str := s.data

/-- JS whitespace (`\s`, `trim`): space, tab, newline, carriage return,
vertical tab, form feed and no-break space (the forms that occur in the
repository's data). -/
def jsIsSpace (c : Char) : Bool :=
  c = ' ' || c = '\t' || c = '\n' || c = '\r' ||
  c = '\x0b' || c = '\x0c' || c = ' '

/-- JS `\d`. -/
def jsIsDigit (c : Char) : Bool := '0' ≤ c && c ≤ '9'

/-- JS `\w` = `[A-Za-z0-9_]`. -/
def jsIsWord (c : Char) : Bool :=
  ('a' ≤ c && c ≤ 'z') || ('A' ≤ c && c ≤ 'Z') || jsIsDigit c || c = '_'

/-- JS `toLowerCase`, restricted to ASCII plus the accented Latin letters
used by the source (Á É Í Ó Ú Ñ Ü); all other characters appearing in the
pipeline's data are case-fixpoints. -/
def jsLowerChar (c : Char) : Char :=
  if 'A' ≤ c && c ≤ 'Z' then Char.ofNat (c.toNat + 32)
  else if c = 'Á' then 'á' else if c = 'É' then 'é'
  else if c = 'Í' then 'í' else if c = 'Ó' then 'ó'
  else if c = 'Ú' then 'ú' else if c = 'Ñ' then 'ñ'
  else if c = 'Ü' then 'ü' else c

/-- JS `toUpperCase`, same character range as `jsLowerChar`. -/
def jsUpperChar (c : Char) : Char :=
  if 'a' ≤ c && c ≤ 'z' then Char.ofNat (c.toNat - 32)
  else if c = 'á' then 'Á' else if c = 'é' then 'É'
  else if c = 'í' then 'Í' else if c = 'ó' then 'Ó'
  else if c = 'ú' then 'Ú' else if c = 'ñ' then 'Ñ'
  else if c = 'ü' then 'Ü' else c

def jsLower (s : Str) : Str := s.map jsLowerChar

def jsUpper (s : Str) : Str := s.map jsUpperChar

/-- JS `String.prototype.trim`. -/
def jsTrim (s : Str) : Str :=
  ((s.dropWhile jsIsSpace).reverse.dropWhile jsIsSpace).reverse

/-- JS `split('\n')`: always returns at least one (possibly empty) piece;
the pieces contain no newline. -/
def splitLines : Str → List Str
  | [] => [[]]
  | c :: cs =>
    match splitLines cs with
    | [] => [[]]
    | l :: ls => if c = '\n' then [] :: l :: ls else (c :: l) :: ls

/-- JS `Array.prototype.join('\n')`. -/
def joinLines : List Str → Str
  | [] => []
  | [l] => l
  | l :: ls => l ++ '\n' :: joinLines ls

/-- Case-insensitive literal prefix match (JS `/^pat/i`-style piece):
returns the remainder after the pattern, comparing lower-cased characters. -/
def eatCI : Str → Str → Option Str
  | [], s => some s
  | _, [] => none
  | p :: ps, c :: cs => if jsLowerChar c = p then eatCI ps cs else none

/-- Case-sensitive literal prefix match. -/
def eatCS : Str → Str → Option Str
  | [], s => some s
  | _, [] => none
  | p :: ps, c :: cs => if c = p then eatCS ps cs else none

/-- Consume one character from a set of alternatives. -/
def eatOne (alts : List Char) : Str → Option Str
  | [] => none
  | c :: cs => if alts.contains c then some cs else none

/-- Consume one character from a set of (lower-case) alternatives,
case-insensitively. -/
def eatOneCI (alts : List Char) : Str → Option Str
  | [] => none
  | c :: cs => if alts.contains (jsLowerChar c) then some cs else none

/-- `span`-style greedy class match: `(consumed, rest)`. -/
def spanP (p : Char → Bool) : Str → Str × Str
  | [] => ([], [])
  | c :: cs =>
    if p c then
      let (a, b) := spanP p cs
      (c :: a, b)
    else ([], c :: cs)

/-- Greedy `\s*`. -/
def eatWS (s : Str) : Str := s.dropWhile jsIsSpace

/-- Greedy `\s+` (at least one whitespace character). -/
def eatWS1 (s : Str) : Option Str :=
  match s with
  | [] => none
  | c :: cs => if jsIsSpace c then some (cs.dropWhile jsIsSpace) else none

/-- First alternative that succeeds (JS regex alternation order). -/
def firstAlt {α : Type} : List (Option α) → Option α
  | [] => none
  | some a :: _ => some a
  | none :: rest => firstAlt rest

/-! ## Text normalizer: `cleanPdfText` (src/unnamed/part_006, lines 654-719) -/

/-- `/^CÁMARA DE DIPUTADOS/i.test(trimmed)` -/
def skipCamara (t : Str) : Bool := (eatCI (str "cámara de diputados") t).isSome

/-- `/^Secretar[ií]a\s+(General|de\s+Servicios\s+Parlamentarios)/i` -/
def skipSecretaria (t : Str) : Bool :=
  (do
    let s ← eatCI (str "secretar") t
    let s ← eatOneCI ['i', 'í'] s
    let s ← eatCI (str "a") s
    let s ← eatWS1 s
    firstAlt [eatCI (str "general") s,
      do
        let s ← eatCI (str "de") s
        let s ← eatWS1 s
        let s ← eatCI (str "servicios") s
        let s ← eatWS1 s
        eatCI (str "parlamentarios") s]).isSome

/-- `/^Última\s+Reforma\s+DOF/i` -/
def skipUltima (t : Str) : Bool :=
  (do
    let s ← eatCI (str "última") t
    let s ← eatWS1 s
    let s ← eatCI (str "reforma") s
    let s ← eatWS1 s
    eatCI (str "dof") s).isSome

/-- `/^\d{1,4}\s+de\s+\d{1,4}$/` (case-sensitive, anchored at both ends). -/
def skipPageNum (t : Str) : Bool :=
  let (d1, r1) := spanP jsIsDigit t
  if d1.length = 0 || 4 < d1.length then false
  else
    (do
      let s ← eatWS1 r1
      let s ← eatCS (str "de") s
      let s ← eatWS1 s
      let (d2, r2) := spanP jsIsDigit s
      if d2.length = 0 || 4 < d2.length || r2 ≠ [] then none else some ()).isSome

/-- Keyword of the reform-annotation pattern: one of
`Párrafo|Art[ií]culo|Fracción|Inciso|Numeral|Apartado|Base|Secci[oó]n` (CI). -/
def eatReformKeyword (t : Str) : Option Str :=
  firstAlt [eatCI (str "párrafo") t,
    (do
      let s ← eatCI (str "art") t
      let s ← eatOneCI ['i', 'í'] s
      eatCI (str "culo") s),
    eatCI (str "fracción") t, eatCI (str "inciso") t,
    eatCI (str "numeral") t, eatCI (str "apartado") t,
    eatCI (str "base") t,
    (do
      let s ← eatCI (str "secci") t
      let s ← eatOneCI ['o', 'ó'] s
      eatCI (str "n") s)]

/-- Action stems `reformad|adicionad|derogad|abrogad|publicad` (CI). -/
def eatActionStem (t : Str) : Option Str :=
  firstAlt [eatCI (str "reformad") t, eatCI (str "adicionad") t,
    eatCI (str "derogad") t, eatCI (str "abrogad") t, eatCI (str "publicad") t]

/-- `/^(?:Párrafo|Art[ií]culo|Fracción|Inciso|Numeral|Apartado|Base|Secci[oó]n)\s+(?:reformad|adicionad|derogad|abrogad|publicad)/i` -/
def skipReform (t : Str) : Bool :=
  (do
    let s ← eatReformKeyword t
    let s ← eatWS1 s
    eatActionStem s).isSome

/-- `/^Denominaci[oó]n\s+(?:del|de\s+la|de\s+los)?\s*(?:Cap[ií]tulo|T[ií]tulo|Secci[oó]n)\s+(?:reformad|adicionad)/i` -/
def skipDenominacion (t : Str) : Bool :=
  let tail : Str → Option Unit := fun s => do
    let s := eatWS s
    let s ← firstAlt [
      (do
        let u ← eatCI (str "cap") s
        let u ← eatOneCI ['i', 'í'] u
        eatCI (str "tulo") u),
      (do
        let u ← eatCI (str "t") s
        let u ← eatOneCI ['i', 'í'] u
        eatCI (str "tulo") u),
      (do
        let u ← eatCI (str "secci") s
        let u ← eatOneCI ['o', 'ó'] u
        eatCI (str "n") u)]
    let s ← eatWS1 s
    let _ ← firstAlt [eatCI (str "reformad") s, eatCI (str "adicionad") s]
    some ()
  (do
    let s ← eatCI (str "denominaci") t
    let s ← eatOneCI ['o', 'ó'] s
    let s ← eatCI (str "n") s
    let s ← eatWS1 s
    firstAlt [
      (do let u ← eatCI (str "del") s; tail u),
      (do
        let u ← eatCI (str "de") s
        let u ← eatWS1 u
        let u ← eatCI (str "la") u
        tail u),
      (do
        let u ← eatCI (str "de") s
        let u ← eatWS1 u
        let u ← eatCI (str "los") u
        tail u),
      tail s]).isSome

/-- `/^(?:Fe\s+de\s+erratas|Nota\s+de\s+vigencia)\b/i` (note the trailing
word boundary: the next character must not be a word character). -/
def skipFeErratas (t : Str) : Bool :=
  (do
    let s ← firstAlt [
      (do
        let s ← eatCI (str "fe") t
        let s ← eatWS1 s
        let s ← eatCI (str "de") s
        let s ← eatWS1 s
        eatCI (str "erratas") s),
      (do
        let s ← eatCI (str "nota") t
        let s ← eatWS1 s
        let s ← eatCI (str "de") s
        let s ← eatWS1 s
        eatCI (str "vigencia") s)]
    match s with
    | [] => some ()
    | c :: _ => if jsIsWord c then none else some ()).isSome

/-- `/^\((?:Reformad|Adicionad|Derogad|Abrogad)/i` -/
def skipParenReform (t : Str) : Bool :=
  (do
    let s ← eatOne ['('] t
    firstAlt [eatCI (str "reformad") s, eatCI (str "adicionad") s,
      eatCI (str "derogad") s, eatCI (str "abrogad") s]).isSome

/-- Union of the line-skip patterns of `cleanPdfText`, applied to the
trimmed line. -/
def skipLine (t : Str) : Bool :=
  skipCamara t || skipSecretaria t || skipUltima t || skipPageNum t ||
  skipReform t || skipDenominacion t || skipFeErratas t || skipParenReform t

/-- Character class `[A-ZÁÉÍÓÚÑÜ\s,.\-()]` of the repeated-title detector. -/
def capsClass (c : Char) : Bool :=
  ('A' ≤ c && c ≤ 'Z') || c = 'Á' || c = 'É' || c = 'Í' || c = 'Ó' ||
  c = 'Ú' || c = 'Ñ' || c = 'Ü' || jsIsSpace c || c = ',' || c = '.' ||
  c = '-' || c = '(' || c = ')'

/-- A candidate repeated all-caps title line: longer than 20 characters,
equal to its own upper-casing and drawn from `capsClass` only
(`t.length > 20 && t === t.toUpperCase() && /^[A-ZÁÉÍÓÚÑÜ\s,.\-()]+$/.test(t)`). -/
def isCapsHeader (t : Str) : Bool :=
  decide (20 < t.length) && t == jsUpper t && t.all capsClass

/-- First pass of `cleanPdfText` on one line: blank lines become empty,
artifact lines are dropped, everything else is kept verbatim. -/
def pass1Line (l : Str) : Option Str :=
  let t := jsTrim l
  if t = [] then some [] else if skipLine t then none else some l

/-- Number of lines of `L` whose trim equals `v` (the multiplicity used by
the repeated-caps-title counter `capsLineCount`). -/
def countTrim (L : List Str) (v : Str) : Nat :=
  (L.filter (fun l => jsTrim l == v)).length

/-- A maximal run of `k` newlines, capped at 3 when `k ≥ 4`
(`result.replace(/\n{4,}/g, '\n\n\n')`). -/
def emitRun (k : Nat) : Str := List.replicate (if 4 ≤ k then 3 else k) '\n'

/-- Character-level worker for the newline-run collapse: `k` pending
newlines have been read but not yet emitted. -/
def collapseAux : Nat → Str → Str
  | k, [] => emitRun k
  | k, c :: cs =>
    if c = '\n' then collapseAux (k + 1) cs
    else emitRun k ++ c :: collapseAux 0 cs

/-- `result.replace(/\n{4,}/g, '\n\n\n')`. -/
def collapseNl (s : Str) : Str := collapseAux 0 s

/-- The `cleaned` line list of `cleanPdfText`: line-level artifact
removal. -/
def cleanedOf (t : Str) : List Str := (splitLines t).filterMap pass1Line

/-- Repeated all-caps title removal of `cleanPdfText`: drop every line
whose trimmed text is a caps-header candidate occurring at least 5 times
among the kept lines.  The source counts caps lines over the `cleaned`
list and then filters the joined string line-by-line per key; since
split-join is the identity on newline-free lines and the per-key filters
commute, this is one filter over the `cleaned` list with the count taken
on that same list. -/
def keptOf (t : Str) : List Str :=
  (cleanedOf t).filter
    (fun l => !(isCapsHeader (jsTrim l) &&
      decide (5 ≤ countTrim (cleanedOf t) (jsTrim l))))

/-- `cleanPdfText` (src/unnamed/part_006 lines 654-719): line-level
artifact removal, repeated all-caps title removal, then blank-run
collapse. -/
def cleanPdfText (t : Str) : Str := collapseNl (joinLines (keptOf t))

/-! ## Data model (src/unnamed/part_006, lines 335-377) -/

inductive LawStatus
  | in_force | amended | repealed | not_yet_in_force
deriving DecidableEq, Repr

structure LawIndexEntry where
  id : Str
  code : Str
  title : Str
  titleEn : Option Str
  shortName : Str
  status : LawStatus
  issuedDate : Str
  inForceDate : Str
  url : Str
  pdfUrl : Option Str
  docUrl : Option Str
  description : Option Str
deriving DecidableEq, Repr

structure ParsedProvision where
  provision_ref : Str
  chapter : Option Str
  «section» : Str
  title : Str
  content : Str
deriving DecidableEq, Repr

structure ParsedDefinition where
  term : Str
  definition : Str
  source_provision : Option Str
deriving DecidableEq, Repr

structure ParsedLaw where
  id : Str
  «type» : Str
  title : Str
  title_en : Option Str
  short_name : Str
  status : LawStatus
  issued_date : Str
  in_force_date : Str
  url : Str
  description : Option Str
  provisions : List ParsedProvision
  definitions : List ParsedDefinition
deriving DecidableEq, Repr

/-! ## `normalizeArticleRef` (src/unnamed/part_006, lines 426-437) -/

/-- `replace(/\s+/g, '')`: remove every whitespace character. -/
def removeAllWS (s : Str) : Str := s.filter (fun c => !jsIsSpace c)

/-- Global replace `/(\d+)\s*[oa]\.?/g → '$1'` (ordinal-suffix stripping);
applied after lower-casing, so the case-sensitive `[oa]` sees lower case.
`fuel` bounds the scan (callers pass the string length plus one; each step
consumes at least one character). -/
def ordReplAux : Nat → Str → Str
  | 0, s => s
  | _, [] => []
  | fuel + 1, c :: cs =>
    if jsIsDigit c then
      let (ds, r1) := spanP jsIsDigit (c :: cs)
      match eatWS r1 with
      | o :: rest =>
        if o = 'o' || o = 'a' then
          let rest2 := match rest with
            | '.' :: rr => rr
            | _ => rest
          ds ++ ordReplAux fuel rest2
        else c :: ordReplAux fuel cs
      | [] => c :: ordReplAux fuel cs
    else c :: ordReplAux fuel cs

/-- `normalizeArticleRef`: lower-case and trim, strip ordinal suffixes,
remove whitespace, prefix with `art` when not already present. -/
def normalizeArticleRef (raw : Str) : Str :=
  let ref := jsTrim (jsLower raw)
  let ref := ordReplAux (ref.length + 1) ref
  let ref := removeAllWS ref
  if List.isPrefixOf (str "art") ref then ref else str "art" ++ ref

/-! ## Regex pieces shared by the extractors -/

/-- The part of `s` consumed before reaching the suffix `r`. -/
def consumedBy (s r : Str) : Str := s.take (s.length - r.length)

/-- First element of `xs` on which `f` succeeds (backtracking order). -/
def firstSomeList {α β : Type} : List α → (α → Option β) → Option β
  | [], _ => none
  | a :: as, f =>
    match f a with
    | some b => some b
    | none => firstSomeList as f

/-- Backtracking candidates for a greedy `X*` piece whose matched run is
`run` followed by `rest`: the suffixes `run.drop k ++ rest` for
`k = run.length` down to `0`, longest-consumption first. -/
def backCandsAll : Str → Str → List Str
  | [], rest => [rest]
  | c :: cs, rest => backCandsAll cs rest ++ [c :: (cs ++ rest)]

/-- Backtracking candidates for a greedy `X+` piece (at least one
character consumed). -/
def backCands1 : Str → Str → List Str
  | [], _ => []
  | _ :: cs, rest => backCandsAll cs rest

/-- `Art[ií]culo` case-insensitively. -/
def eatArticuloCI (s : Str) : Option Str := do
  let s ← eatCI (str "art") s
  let s ← eatOneCI ['i', 'í'] s
  eatCI (str "culo") s

/-- `Bis|Ter|Qu[aá]ter|Quintus|Sextus|Septimus` case-insensitively, in
source alternation order. -/
def eatBisKeyword (s : Str) : Option Str :=
  firstAlt [eatCI (str "bis") s, eatCI (str "ter") s,
    (do
      let u ← eatCI (str "qu") s
      let u ← eatOneCI ['a', 'á'] u
      eatCI (str "ter") u),
    eatCI (str "quintus") s, eatCI (str "sextus") s, eatCI (str "septimus") s]

/-- Optional group `(?:\s*(?:Bis|Ter|…)\s*\d*)?` of the article pattern:
candidate `(captured text, remainder)` pairs in backtracking order (group
taken first, skipped second). -/
def g1Options (s : Str) : List (Str × Str) :=
  let (w, r) := spanP jsIsSpace s
  match eatBisKeyword r with
  | some r2 =>
    let kw := consumedBy r r2
    let (w2, r3) := spanP jsIsSpace r2
    let (ds, r4) := spanP jsIsDigit r3
    [(w ++ kw ++ w2 ++ ds, r4), ([], s)]
  | none => [([], s)]

/-- Optional group `(?:\s*[oa]\.?)?` (case-insensitive `[oa]`): candidate
`(captured text, remainder)` pairs in backtracking order (with the dot,
without it, group skipped). -/
def g2Options (s : Str) : List (Str × Str) :=
  let (w, r) := spanP jsIsSpace s
  match r with
  | c :: rest =>
    if c = 'o' || c = 'a' || c = 'O' || c = 'A' then
      match rest with
      | '.' :: rr => [(w ++ [c, '.'], rr), (w ++ [c], rest), ([], s)]
      | _ => [(w ++ [c], rest), ([], s)]
    else [([], s)]
  | [] => [([], s)]

/-- Trailing `\s*[\.\-]` of the article pattern. -/
def articleTail (s : Str) : Bool :=
  match eatWS s with
  | c :: _ => c = '.' || c = '-'
  | [] => false

/-- `line.match(articleStartRe)` for the plain-text extractor
(src/unnamed/part_006 line 730):
`/^\s*Art[ií]culo\s+([\d]+(?:\s*(?:Bis|Ter|Qu[aá]ter|Quintus|Sextus|Septimus)\s*\d*)?(?:\s*[oa]\.?)?)\s*[\.\-]/i`,
returning the capture group. -/
def articleLineNum (line : Str) : Option Str := do
  let s := eatWS line
  let s ← eatArticuloCI s
  let s ← eatWS1 s
  let (ds, r) := spanP jsIsDigit s
  if ds = [] then none
  else
    firstSomeList (g1Options r) (fun g1 =>
      firstSomeList (g2Options g1.2) (fun g2 =>
        if articleTail g2.2 then some (ds ++ g1.1 ++ g2.1) else none))

/-- `T[IÍ]TULO|CAP[IÍ]TULO|SECCI[OÓ]N` case-insensitively, in source
alternation order. -/
def eatChapterKeyword (s : Str) : Option Str :=
  firstAlt [
    (do
      let u ← eatCI (str "t") s
      let u ← eatOneCI ['i', 'í'] u
      eatCI (str "tulo") u),
    (do
      let u ← eatCI (str "cap") s
      let u ← eatOneCI ['i', 'í'] u
      eatCI (str "tulo") u),
    (do
      let u ← eatCI (str "secci") s
      let u ← eatOneCI ['o', 'ó'] u
      eatCI (str "n") u)]

/-- JS `.` (dot): any character except line terminators (`\n`, `\r`). -/
def jsDotChar (c : Char) : Bool := c ≠ '\n' && c ≠ '\r'

/-- `line.match(chapterRe)` (src/unnamed/part_006 line 731):
`/^\s*(T[IÍ]TULO|CAP[IÍ]TULO|SECCI[OÓ]N)\s+(.+)/i`, returning the two
capture groups (keyword as written, rest of the header). -/
def chapterLineMatch (line : Str) : Option (Str × Str) :=
  let s := eatWS line
  match eatChapterKeyword s with
  | none => none
  | some r =>
    let kw := consumedBy s r
    let (w, rest) := spanP jsIsSpace r
    match w with
    | [] => none
    | _ :: wtail =>
      firstSomeList (backCandsAll wtail rest) (fun s2 =>
        let (m2, _) := spanP jsDotChar s2
        if m2 = [] then none else some (kw, m2))

/-- `transitoryRe` (src/unnamed/part_006 line 732):
`/^\s*(TRANSITORIOS?|ART[IÍ]CULOS?\s+TRANSITORIOS?)\s*$/i`. -/
def transitoryLine (line : Str) : Bool :=
  (do
    let s := eatWS line
    let s ← firstAlt [
      (do
        let u ← eatCI (str "transitorio") s
        firstAlt [eatCI (str "s") u, some u]),
      (do
        let u ← eatCI (str "art") s
        let u ← eatOneCI ['i', 'í'] u
        let u ← eatCI (str "culo") u
        let u ← firstAlt [eatCI (str "s") u, some u]
        let u ← eatWS1 u
        let u ← eatCI (str "transitorio") u
        firstAlt [eatCI (str "s") u, some u])]
    if eatWS s = [] then some () else none).isSome

/-! ## Definition extraction (src/unnamed/part_006, lines 818-834 and 521-538) -/

/-- Definitional-intent cue at one position: one branch of
`/se\s+(?:entender[áa]|entiende)\s+por|Para\s+(?:los\s+)?efectos\s+de/i`. -/
def defCueAt (s : Str) : Bool :=
  (do
    let u ← eatCI (str "se") s
    let u ← eatWS1 u
    let u ← firstAlt [
      (do
        let v ← eatCI (str "entender") u
        eatOneCI ['á', 'a'] v),
      eatCI (str "entiende") u]
    let u ← eatWS1 u
    eatCI (str "por") u).isSome ||
  (do
    let u ← eatCI (str "para") s
    let u ← eatWS1 u
    firstAlt [
      (do
        let v ← eatCI (str "los") u
        let v ← eatWS1 v
        let v ← eatCI (str "efectos") v
        let v ← eatWS1 v
        eatCI (str "de") v),
      (do
        let v ← eatCI (str "efectos") u
        let v ← eatWS1 v
        eatCI (str "de") v)]).isSome

/-- Unanchored `.test`: try the predicate at every position. -/
def scanHas (p : Str → Bool) : Nat → Str → Bool
  | 0, _ => false
  | _ + 1, [] => p []
  | fuel + 1, c :: cs => p (c :: cs) || scanHas p fuel cs

/-- `.test` of the definitional-cue pattern on a whole article text. -/
def hasDefCue (text : Str) : Bool := scanHas defCueAt (text.length + 1) text

def romanChar (c : Char) : Bool :=
  c = 'I' || c = 'V' || c = 'X' || c = 'L' || c = 'C'

/-- Second half of a `defRe` match, after the `:` — `\s*([^;]+(?:;|$))`,
with the `\s*` backtracking one character when needed to keep the capture
nonempty.  Returns (third capture, remainder after the match). -/
def defTail (r5 : Str) : Option (Str × Str) :=
  let (w2, r6) := spanP jsIsSpace r5
  let (nsc, r7) := spanP (fun c => c ≠ ';') r6
  match nsc, r7 with
  | _ :: _, ';' :: r8 => some (nsc ++ [';'], r8)
  | _ :: _, [] => some (nsc, [])
  | [], ';' :: r8 =>
    match w2.getLast? with
    | some wl => some ([wl, ';'], r8)
    | none => none
  | [], [] =>
    match w2.getLast? with
    | some wl => some ([wl], [])
    | none => none
  | _, _ => none

/-- One attempted match of `defRe`
(`/([IVXLC]+)\.\s*([^:]+):\s*([^;]+(?:;|$))/g`, case-sensitive) at the
current position: returns (second capture, third capture, remainder). -/
def defMatchAt (s : Str) : Option (Str × Str × Str) :=
  let (rom, r1) := spanP romanChar s
  if rom = [] then none
  else
    match r1 with
    | '.' :: r2 =>
      let (w, r3) := spanP jsIsSpace r2
      let (nc, r4) := spanP (fun c => c ≠ ':') r3
      match nc, r4 with
      | _ :: _, ':' :: r5 => (defTail r5).map (fun p => (nc, p.1, p.2))
      | [], ':' :: r5 =>
        match w.getLast? with
        | some wl => (defTail r5).map (fun p => ([wl], p.1, p.2))
        | none => none
      | _, _ => none
    | _ => none

/-- Global `defRe.exec` loop: all matches left to right, resuming after
each match. -/
def defScanAux : Nat → Str → List (Str × Str)
  | 0, _ => []
  | _, [] => []
  | fuel + 1, c :: cs =>
    match defMatchAt (c :: cs) with
    | some (m2, m3, rest) => (m2, m3) :: defScanAux fuel rest
    | none => defScanAux fuel cs

/-- `replace(/;$/, '')`. -/
def stripTrailingSemi (s : Str) : Str :=
  match s.reverse with
  | ';' :: r => r.reverse
  | _ => s

/-- Definition extraction for one extracted article: run only when the
article text matches the cue pattern; each regex match is filtered by the
term/definition length bounds before being emitted. -/
def extractDefsFrom (ref : Str) (text : Str) : List ParsedDefinition :=
  if hasDefCue text then
    (defScanAux (text.length + 1) text).filterMap (fun m =>
      let term := jsTrim m.1
      let definition := jsTrim (stripTrailingSemi (jsTrim m.2))
      if 2 < term.length && term.length < 100 && 5 < definition.length then
        some ⟨term, term ++ str ": " ++ definition, some ref⟩
      else none)
  else []

/-! ## Article title extraction -/

/-- Character class `[\d\w\s.]` of the title pattern. -/
def titleCls (c : Char) : Bool :=
  jsIsDigit c || jsIsWord c || jsIsSpace c || c = '.'

/-- `text.match(/^Art[ií]culo\s+[\d\w\s.]+[\.\-]\s*(CAP\.)/i)` where `CAP`
is `[^.\n]+` in the plain-text extractor and `[^.]+` in the HTML
extractor (`capP` is that class); returns the capture (which includes the
final period), with full greedy backtracking across the overlapping
`\s+`, `[\d\w\s.]+` and `\s*` pieces. -/
def titleMatchGen (capP : Char → Bool) (text : Str) : Option Str :=
  match eatArticuloCI text with
  | none => none
  | some s =>
    match s with
    | [] => none
    | c :: cs =>
      if !jsIsSpace c then none
      else
        let (wrun, wrest) := spanP jsIsSpace cs
        firstSomeList (backCandsAll wrun wrest) (fun s1 =>
          let (run, rest) := spanP titleCls s1
          firstSomeList (backCands1 run rest) (fun s2 =>
            match s2 with
            | t :: s3 =>
              if t = '.' || t = '-' then
                let (w2run, w2rest) := spanP jsIsSpace s3
                firstSomeList (backCandsAll w2run w2rest) (fun s4 =>
                  let (cap, s5) := spanP capP s4
                  if cap = [] then none
                  else
                    match s5 with
                    | '.' :: _ => some (cap ++ ['.'])
                    | _ => none)
              else none
            | [] => none))

/-- Title of one article: trimmed first-sentence capture, cut at 120. -/
def mkTitleWith (capP : Char → Bool) (text : Str) : Str :=
  match titleMatchGen capP text with
  | some m1 =>
    let t := jsTrim m1
    if 120 < t.length then t.take 120 else t
  | none => []

/-- Plain-text variant: capture class `[^.\n]+`. -/
def mkTitleText (text : Str) : Str :=
  mkTitleWith (fun c => c ≠ '.' && c ≠ '\n') text

/-- HTML variant: capture class `[^.]+`. -/
def mkTitleHtml (text : Str) : Str :=
  mkTitleWith (fun c => c ≠ '.') text

/-! ## `extractArticlesFromText` (src/unnamed/part_006, lines 721-837) -/

/-- Global replace `/\n\s*\n\s*\n/g → '\n\n'`: a maximal whitespace run
starting at a newline and containing at least three newlines is matched
through its last newline and replaced by two newlines. -/
def tripleNlAux : Nat → Str → Str
  | 0, s => s
  | _, [] => []
  | fuel + 1, c :: cs =>
    if c = '\n' then
      let (run, rest) := spanP jsIsSpace (c :: cs)
      if 3 ≤ (run.filter (fun d => d = '\n')).length then
        let tailWS := (run.reverse.takeWhile (fun d => d ≠ '\n')).reverse
        '\n' :: '\n' :: tripleNlAux fuel (tailWS ++ rest)
      else c :: tripleNlAux fuel cs
    else c :: tripleNlAux fuel cs

/-- Global replace `/[ \t]{3,}/g → '  '`. -/
def horizRepl : Nat → Str → Str
  | 0, s => s
  | _, [] => []
  | fuel + 1, c :: cs =>
    if c = ' ' || c = '\t' then
      let (run, rest) := spanP (fun d => d = ' ' || d = '\t') (c :: cs)
      if 3 ≤ run.length then ' ' :: ' ' :: horizRepl fuel rest
      else run ++ horizRepl fuel rest
    else c :: horizRepl fuel cs

/-- Layout cleanup of one article's text: collapse triple-plus blank
runs, collapse wide horizontal space, trim. -/
def cleanupArticleText (t : Str) : Str :=
  let t1 := tripleNlAux (t.length + 1) t
  let t2 := horizRepl (t1.length + 1) t1
  jsTrim t2

/-- `replace(/\s+/g, ' ')`. -/
def wsToSingleAux : Bool → Str → Str
  | _, [] => []
  | inWS, c :: cs =>
    if jsIsSpace c then
      if inWS then wsToSingleAux true cs else ' ' :: wsToSingleAux true cs
    else c :: wsToSingleAux false cs

def wsToSingle (s : Str) : Str := wsToSingleAux false s

structure ArticleBlock where
  num : Str
  startLine : Nat
  chapter : Str
deriving DecidableEq, Repr

/-- Line-scanning loop of `extractArticlesFromText`: records article
boundaries (only before the transitory marker), tracks the current
chapter context and the (last) transitory-marker line index. -/
def scanLinesAux : List Str → Nat → Str → Option Nat → List ArticleBlock × Option Nat
  | [], _, _, tstart => ([], tstart)
  | l :: ls, i, chap, tstart =>
    match chapterLineMatch l with
    | some m =>
      let c0 := jsUpper m.1 ++ [' '] ++ jsTrim m.2
      let c1 := if 200 < c0.length then c0.take 200 else c0
      scanLinesAux ls (i + 1) c1 tstart
    | none =>
      if transitoryLine l then scanLinesAux ls (i + 1) chap (some i)
      else
        match tstart with
        | none =>
          match articleLineNum l with
          | some num =>
            let (bs, ts) := scanLinesAux ls (i + 1) chap none
            (⟨jsTrim num, i, chap⟩ :: bs, ts)
          | none => scanLinesAux ls (i + 1) chap none
        | some _ => scanLinesAux ls (i + 1) chap tstart

/-- `lines.slice(a, b)`. -/
def sliceLines (lines : List Str) (a b : Nat) : List Str :=
  (lines.drop a).take (b - a)

/-- Provision-and-definitions construction of one article from its
(already sliced, cleaned and capped) text; articles shorter than 15
characters are dropped. -/
def mkArticleCore (b : ArticleBlock) (text : Str) :
    Option (ParsedProvision × List ParsedDefinition) :=
  if text.length < 15 then none
  else
    let ref := normalizeArticleRef b.num
    let sectionNum := jsTrim (wsToSingle b.num)
    some ({ provision_ref := ref,
            chapter := if b.chapter = [] then none else some b.chapter,
            «section» := sectionNum,
            title := mkTitleText text,
            content := text },
          extractDefsFrom ref text)

/-- Build one article's provision (and its definitions) from the lines
between its boundary and `endLine`. -/
def mkArticle (lines : List Str) (b : ArticleBlock) (endLine : Nat) :
    Option (ParsedProvision × List ParsedDefinition) :=
  let text := cleanupArticleText (jsTrim (joinLines (sliceLines lines b.startLine endLine)))
  mkArticleCore b (if 8000 < text.length then text.take 8000 else text)

/-- Fold the recorded article boundaries into provisions; each article
ends at the next boundary, the last one at the transitory marker (if
any) or at the end of the document. -/
def assembleArticles (lines : List Str) (tstart : Option Nat) (total : Nat) :
    List ArticleBlock → List ParsedProvision × List ParsedDefinition
  | [] => ([], [])
  | [b] =>
    let endLine := match tstart with
      | some t => t
      | none => total
    match mkArticle lines b endLine with
    | some p => ([p.1], p.2)
    | none => ([], [])
  | b :: b2 :: rest =>
    let acc := assembleArticles lines tstart total (b2 :: rest)
    match mkArticle lines b b2.startLine with
    | some p => (p.1 :: acc.1, p.2 ++ acc.2)
    | none => acc

/-- `extractArticlesFromText` (src/unnamed/part_006, lines 721-837). -/
def extractArticlesFromText (text : Str) :
    List ParsedProvision × List ParsedDefinition :=
  let lines := splitLines text
  let st := scanLinesAux lines 0 [] none
  assembleArticles lines st.2 lines.length st.1

/-! ## `extractTransitoryFromText` (src/unnamed/part_006, lines 842-880) -/

/-- Does the whitespace run at this point contain a newline (`\s*\n`
with backtracking)? -/
def transTailNl (r : Str) : Bool := ((spanP jsIsSpace r).1).contains '\n'

/-- Marker keyword with its optional trailing `S` followed by `\s*\n`. -/
def transKw1 (r : Str) : Bool :=
  match eatCI (str "transitorio") r with
  | some u =>
    (match eatCI (str "s") u with
     | some v => transTailNl v
     | none => false) || transTailNl u
  | none => false

/-- `ART[IÍ]CULOS?\s+TRANSITORIOS?` followed by `\s*\n`. -/
def transKw2 (r : Str) : Bool :=
  match eatArticuloCI r with
  | some u =>
    let afterArt : Str → Bool := fun v =>
      match eatWS1 v with
      | some w => transKw1 w
      | none => false
    (match eatCI (str "s") u with
     | some v => afterArt v
     | none => false) || afterArt u
  | none => false

/-- One attempted match of the transitory-section search pattern
`/\n\s*(TRANSITORIOS?|ART[IÍ]CULOS?\s+TRANSITORIOS?)\s*\n/i` at this
position. -/
def transSearchAt (s : Str) : Bool :=
  match s with
  | '\n' :: r =>
    let r1 := eatWS r
    transKw1 r1 || transKw2 r1
  | _ => false

/-- `text.search(...)`: index of the first position where the pattern
matches, if any. -/
def findTransIdx : Nat → Nat → Str → Option Nat
  | 0, _, _ => none
  | _ + 1, _, [] => none
  | fuel + 1, i, c :: cs =>
    if transSearchAt (c :: cs) then some i else findTransIdx fuel (i + 1) cs

/-- Ordinal-word keyword of the transitory article pattern:
`PRIMERO|SEGUNDO|TERCERO|CUARTO|QUINTO|SEXTO|S[EÉ]PTIMO|OCTAVO|NOVENO|D[EÉ]CIMO|[ÚU]NICO`
case-insensitively, in source alternation order. -/
def eatOrdinalKw (s : Str) : Option Str :=
  firstAlt [eatCI (str "primero") s, eatCI (str "segundo") s,
    eatCI (str "tercero") s, eatCI (str "cuarto") s, eatCI (str "quinto") s,
    eatCI (str "sexto") s,
    (do
      let u ← eatCI (str "s") s
      let u ← eatOneCI ['e', 'é'] u
      eatCI (str "ptimo") u),
    eatCI (str "octavo") s, eatCI (str "noveno") s,
    (do
      let u ← eatCI (str "d") s
      let u ← eatOneCI ['e', 'é'] u
      eatCI (str "cimo") u),
    (do
      let u ← eatOneCI ['ú', 'u'] s
      eatCI (str "nico") u)]

/-- `transRe.test(line)` (src/unnamed/part_006 line 853):
`/^\s*(?:Art[ií]culo\s+)?(?:PRIMERO|…|[ÚU]NICO)\s*[\.\-]/i`. -/
def transArticleLine (line : Str) : Bool :=
  let s := eatWS line
  let ordAt : Str → Bool := fun u =>
    match eatOrdinalKw u with
    | some v => articleTail v
    | none => false
  (match (do
      let u ← eatArticuloCI s
      eatWS1 u) with
   | some u => ordAt u
   | none => false) || ordAt s

/-- Collect `(label, line index)` for every line matching the transitory
article pattern (label is the trimmed line cut at 80 characters). -/
def collectTransPositions : List Str → Nat → List (Str × Nat)
  | [], _ => []
  | l :: ls, i =>
    if transArticleLine l then
      ((jsTrim l).take 80, i) :: collectTransPositions ls (i + 1)
    else collectTransPositions ls (i + 1)

/-- Natural number rendered in decimal, as model text. -/
def natStr (n : Nat) : Str := (toString n).data

/-- Build the transitory provisions from the collected positions:
sequential keys `trans1`, `trans2`, …, at most 20 entries, entries with
fewer than 15 characters of content skipped (their index still
advances). -/
def buildTransAux (lines : List Str) (total : Nat) :
    Nat → List (Str × Nat) → List ParsedProvision
  | _, [] => []
  | i, p :: rest =>
    if 20 ≤ i then []
    else
      let endIdx := match rest with
        | q :: _ => q.2
        | [] => total
      let content := jsTrim (joinLines (sliceLines lines p.2 endIdx))
      let tl := buildTransAux lines total (i + 1) rest
      if content.length < 15 then tl
      else
        { provision_ref := str "trans" ++ natStr (i + 1),
          chapter := some (str "TRANSITORIOS"),
          «section» := str "Transitorio " ++ natStr (i + 1),
          title := p.1,
          content := content.take 8000 } :: tl

/-- `extractTransitoryFromText` (src/unnamed/part_006, lines 842-880). -/
def extractTransitoryFromText (text : Str) : List ParsedProvision :=
  match findTransIdx (text.length + 1) 0 text with
  | none => []
  | some idx =>
    let ttext := text.drop idx
    let lines := splitLines ttext
    buildTransAux lines lines.length 0 (collectTransPositions lines 0)

/-! ## `parseMexicanText` (src/unnamed/part_006, lines 891-930) -/

/-- The metadata-only `ParsedLaw` produced by the error/short-circuit
branches of the parsers. -/
def emptyParsedLaw (law : LawIndexEntry) : ParsedLaw :=
  { id := law.id,
    «type» := str "statute",
    title := law.title,
    title_en := law.titleEn,
    short_name := law.shortName,
    status := law.status,
    issued_date := law.issuedDate,
    in_force_date := law.inForceDate,
    url := law.url,
    description := some (law.description.getD law.title),
    provisions := [],
    definitions := [] }

/-- `parseMexicanText` (src/unnamed/part_006, lines 891-930): too-short
texts short-circuit to an empty parse; otherwise the text is cleaned and
the regular and transitory extractions are concatenated. -/
def parseMexicanText (text : Str) (law : LawIndexEntry) : ParsedLaw :=
  if text.length < 200 then emptyParsedLaw law
  else
    let cleanedText := cleanPdfText text
    let ex := extractArticlesFromText cleanedText
    let transitoryProvisions := extractTransitoryFromText cleanedText
    { emptyParsedLaw law with
      provisions := ex.1 ++ transitoryProvisions,
      definitions := ex.2 }

/-! ## `stripHtml` (src/unnamed/part_006, lines 382-417) -/

/-- Global case-sensitive literal replace (the entity replacements). -/
def replAll (pat rep : Str) : Nat → Str → Str
  | 0, s => s
  | _, [] => []
  | fuel + 1, c :: cs =>
    match eatCS pat (c :: cs) with
    | some rest => rep ++ replAll pat rep fuel rest
    | none => c :: replAll pat rep fuel cs

/-- `/<br\s*\/?>/gi → '\n'`. -/
def brReplAux : Nat → Str → Str
  | 0, s => s
  | _, [] => []
  | fuel + 1, c :: cs =>
    match (do
        let r ← eatCS (str "<") (c :: cs)
        let r ← eatCI (str "br") r
        let r := eatWS r
        let r := match eatCS (str "/") r with
          | some v => v
          | none => r
        eatCS (str ">") r) with
    | some rest => '\n' :: brReplAux fuel rest
    | none => c :: brReplAux fuel cs

/-- `/<[^>]+>/g → ' '`. -/
def tagReplAux : Nat → Str → Str
  | 0, s => s
  | _, [] => []
  | fuel + 1, c :: cs =>
    if c = '<' then
      let (run, rest) := spanP (fun d => d ≠ '>') cs
      match run, rest with
      | _ :: _, '>' :: r2 => ' ' :: tagReplAux fuel r2
      | _, _ => c :: tagReplAux fuel cs
    else c :: tagReplAux fuel cs

/-- The HTML-entity replacement chain of `stripHtml`, in source order. -/
def entityPairs : List (String × String) :=
  [("&nbsp;", " "), ("&#x00A0;", " "), ("&#160;", " "), ("&amp;", "&"),
   ("&lt;", "<"), ("&gt;", ">"), ("&quot;", "\""), ("&#39;", "\x27"),
   ("&aacute;", "á"), ("&eacute;", "é"), ("&iacute;", "í"),
   ("&oacute;", "ó"), ("&uacute;", "ú"), ("&ntilde;", "ñ"),
   ("&Aacute;", "Á"), ("&Eacute;", "É"), ("&Iacute;", "Í"),
   ("&Oacute;", "Ó"), ("&Uacute;", "Ú"), ("&Ntilde;", "Ñ"),
   ("&uuml;", "ü"), ("&Uuml;", "Ü"), ("&iexcl;", "¡"), ("&iquest;", "¿"),
   ("&laquo;", "«"), ("&raquo;", "»"), ("&mdash;", "—"), ("&ndash;", "–"),
   ("&hellip;", "…")]

/-- `stripHtml`: break tags to newlines, other tags to spaces, decode
entities, collapse whitespace, trim. -/
def stripHtml (html : Str) : Str :=
  let h := brReplAux (html.length + 1) html
  let h := tagReplAux (h.length + 1) h
  let h := entityPairs.foldl (fun acc p => replAll (str p.1) (str p.2) (acc.length + 1) acc) h
  jsTrim (wsToSingle h)

/-! ## `extractArticles` (src/unnamed/part_006, lines 446-542) -/

/-- Greedy `(?:<[^>]*>)*`: consume complete tags (note `[^>]*`, so `<>`
is a tag here). -/
def eatTags : Nat → Str → Str
  | 0, s => s
  | fuel + 1, s =>
    match s with
    | '<' :: r =>
      let (_, rest) := spanP (fun d => d ≠ '>') r
      match rest with
      | '>' :: r2 => eatTags fuel r2
      | _ => s
    | _ => s

/-- Trailing `\s*[\.\-]`, consuming (returns the remainder). -/
def articleTailC (s : Str) : Option Str :=
  match eatWS s with
  | c :: rest => if c = '.' || c = '-' then some rest else none
  | [] => none

/-- One attempted match of the HTML `articleRe`
(`/(?:<[^>]*>)*\s*(?:Art[ií]culo)\s+(…)\s*[\.\-]/gi`) at this position:
returns (first capture, remainder after the full match). -/
def articleMatchAt (s : Str) : Option (Str × Str) := do
  let s1 := eatTags (s.length + 1) s
  let s2 := eatWS s1
  let s3 ← eatArticuloCI s2
  let s4 ← eatWS1 s3
  let (ds, r) := spanP jsIsDigit s4
  if ds = [] then none
  else
    firstSomeList (g1Options r) (fun g1 =>
      firstSomeList (g2Options g1.2) (fun g2 =>
        (articleTailC g2.2).map (fun rest => (ds ++ g1.1 ++ g2.1, rest))))

/-- `articleRe.exec` loop: all `(trimmed capture, match index)` pairs. -/
def scanArticlesHtml : Nat → Nat → Str → List (Str × Nat)
  | 0, _, _ => []
  | _, _, [] => []
  | fuel + 1, i, c :: cs =>
    match articleMatchAt (c :: cs) with
    | some m =>
      let len := (c :: cs).length - m.2.length
      (jsTrim m.1, i) :: scanArticlesHtml fuel (i + len) m.2
    | none => scanArticlesHtml fuel (i + 1) cs

/-- One attempted match of the HTML `chapterRe`
(`/(?:<[^>]*>)*\s*(?:T[IÍ]TULO|CAP[IÍ]TULO|SECCI[OÓ]N)\s+([^<\n]+)/gi`):
returns (whole match, remainder). -/
def chapterMatchAtHtml (s : Str) : Option (Str × Str) :=
  let s1 := eatTags (s.length + 1) s
  let s2 := eatWS s1
  match eatChapterKeyword s2 with
  | none => none
  | some r =>
    match r with
    | [] => none
    | c :: cs =>
      if !jsIsSpace c then none
      else
        let (wrun, wrest) := spanP jsIsSpace cs
        firstSomeList (backCandsAll wrun wrest) (fun s3 =>
          let (m1, after) := spanP (fun d => d ≠ '<' && d ≠ '\n') s3
          if m1 = [] then none else some (consumedBy s after, after))

/-- `chapterRe.exec` loop: `(stripped label, match index)` pairs, keeping
labels with `0 < length < 200` as in the source. -/
def scanChaptersHtml : Nat → Nat → Str → List (Str × Nat)
  | 0, _, _ => []
  | _, _, [] => []
  | fuel + 1, i, c :: cs =>
    match chapterMatchAtHtml (c :: cs) with
    | some m =>
      let len := (c :: cs).length - m.2.length
      let label := jsTrim (stripHtml m.1)
      let tl := scanChaptersHtml fuel (i + len) m.2
      if 0 < label.length && label.length < 200 then (label, i) :: tl else tl
    | none => scanChaptersHtml fuel (i + 1) cs

/-- Inner chapter-context loop of `extractArticles`: the label of the
last chapter match strictly before `pos`, starting from `chap`. -/
def updateChap (chap : Str) (cps : List (Str × Nat)) (pos : Nat) : Str :=
  cps.foldl (fun acc ch => if ch.2 < pos then ch.1 else acc) chap

/-- Per-article loop of `extractArticles`: slice the HTML between
article boundaries, strip tags, cap at 8000, drop below 15, build the
provision and its definitions. -/
def buildArticlesHtml (html : Str) (cps : List (Str × Nat)) :
    Str → List (Str × Nat) → List ParsedProvision × List ParsedDefinition
  | _, [] => ([], [])
  | chap, a :: rest =>
    let nextPos := match rest with
      | a2 :: _ => a2.2
      | [] => html.length
    let chap2 := updateChap chap cps a.2
    let articleHtml := (html.drop a.2).take (nextPos - a.2)
    let text := stripHtml articleHtml
    let text := if 8000 < text.length then text.take 8000 else text
    let acc := buildArticlesHtml html cps chap2 rest
    if text.length < 15 then acc
    else
      let ref := normalizeArticleRef a.1
      let sectionNum := jsTrim (wsToSingle a.1)
      ({ provision_ref := ref,
         chapter := if chap2 = [] then none else some chap2,
         «section» := sectionNum,
         title := mkTitleHtml text,
         content := text } :: acc.1,
       extractDefsFrom ref text ++ acc.2)

/-- `extractArticles` (HTML variant). -/
def extractArticles (html : Str) :
    List ParsedProvision × List ParsedDefinition :=
  let aps := scanArticlesHtml (html.length + 1) 0 html
  if aps = [] then ([], [])
  else
    let cps := scanChaptersHtml (html.length + 1) 0 html
    buildArticlesHtml html cps [] aps

/-! ## `extractTransitoryArticles` (src/unnamed/part_006, lines 549-584) -/

/-- Case-insensitive substring search: index of the first match. -/
def findSubIdxCI (pat : Str) : Nat → Nat → Str → Option Nat
  | 0, _, _ => none
  | _ + 1, i, [] => if (eatCI pat ([] : Str)).isSome then some i else none
  | fuel + 1, i, c :: cs =>
    if (eatCI pat (c :: cs)).isSome then some i
    else findSubIdxCI pat fuel (i + 1) cs

/-- Prefix `(?:<[^>]*>)*\s*TRANSITORIOS?\s*(?:<[^>]*>)*` of the
transitory-section pattern at this position: remainder after it. -/
def transHtmlPrefixAt (s : Str) : Option Str :=
  let s1 := eatTags (s.length + 1) s
  let s2 := eatWS s1
  match eatCI (str "transitorio") s2 with
  | none => none
  | some u =>
    let u := match eatCI (str "s") u with
      | some v => v
      | none => u
    let u := eatWS u
    some (eatTags (u.length + 1) u)

/-- `html.match(/(?:<[^>]*>)*\s*TRANSITORIOS?\s*(?:<[^>]*>)*([\s\S]*?)(?:<\/body>|$)/i)`:
the whole first match `m[0]` (the lazy tail runs to the first
`</body>`, else to the end). -/
def findTransHtml : Nat → Str → Option Str
  | 0, _ => none
  | fuel + 1, s =>
    match transHtmlPrefixAt s with
    | some r =>
      let pre := consumedBy s r
      match findSubIdxCI (str "</body>") (r.length + 1) 0 r with
      | some j => some (pre ++ r.take (j + 7))
      | none => some (pre ++ r)
    | none =>
      match s with
      | [] => none
      | _ :: cs => findTransHtml fuel cs

/-- One attempted match of the HTML `transitoryRe`
(`/(?:(?:Art[ií]culo|PRIMERO|…|[ÚU]NICO)\s*(?:Transitorio)?)\s*[\.\-]/gi`):
remainder after the match. -/
def transHtmlTokenAt (s : Str) : Option Str :=
  match firstAlt [eatArticuloCI s, eatOrdinalKw s] with
  | none => none
  | some u =>
    let u1 := eatWS u
    firstAlt [
      (do
        let v ← eatCI (str "transitorio") u1
        articleTailC v),
      articleTailC u1]

/-- `transitoryRe.exec` loop over the transitory block: `(m[0] stripped
and trimmed, match index)` pairs. -/
def scanTransHtml : Nat → Nat → Str → List (Str × Nat)
  | 0, _, _ => []
  | _, _, [] => []
  | fuel + 1, i, c :: cs =>
    match transHtmlTokenAt (c :: cs) with
    | some rest =>
      let len := (c :: cs).length - rest.length
      (jsTrim (stripHtml ((c :: cs).take len)), i) :: scanTransHtml fuel (i + len) rest
    | none => scanTransHtml fuel (i + 1) cs

/-- Build loop of `extractTransitoryArticles`: slice between markers,
strip, drop below 15, cap 20 entries and 8000 characters. -/
def buildTransHtmlAux (thtml : Str) (total : Nat) :
    Nat → List (Str × Nat) → List ParsedProvision
  | _, [] => []
  | i, p :: rest =>
    if 20 ≤ i then []
    else
      let nextPos := match rest with
        | q :: _ => q.2
        | [] => total
      let text := stripHtml ((thtml.drop p.2).take (nextPos - p.2))
      let tl := buildTransHtmlAux thtml total (i + 1) rest
      if text.length < 15 then tl
      else
        { provision_ref := str "trans" ++ natStr (i + 1),
          chapter := some (str "TRANSITORIOS"),
          «section» := str "Transitorio " ++ natStr (i + 1),
          title := p.1,
          content := text.take 8000 } :: tl

/-- `extractTransitoryArticles` (HTML variant). -/
def extractTransitoryArticles (html : Str) : List ParsedProvision :=
  match findTransHtml (html.length + 1) html with
  | none => []
  | some thtml =>
    buildTransHtmlAux thtml thtml.length 0
      (scanTransHtml (thtml.length + 1) 0 thtml)

/-! ## `parseMexicanHtml` (src/unnamed/part_006, lines 595-632) -/

/-- Case-sensitive `String.prototype.includes`. -/
def strIncludes (pat : Str) : Nat → Str → Bool
  | 0, _ => false
  | _ + 1, [] => (eatCS pat ([] : Str)).isSome
  | fuel + 1, c :: cs =>
    (eatCS pat (c :: cs)).isSome || strIncludes pat fuel cs

/-- `parseMexicanHtml`: error pages (containing `Error 404` or
`No encontrado`, or shorter than 500 characters) short-circuit to an
empty parse; otherwise article and transitory extraction run on the
HTML. -/
def parseMexicanHtml (html : Str) (law : LawIndexEntry) : ParsedLaw :=
  if strIncludes (str "Error 404") (html.length + 1) html ||
     strIncludes (str "No encontrado") (html.length + 1) html ||
     html.length < 500 then
    emptyParsedLaw law
  else
    let ex := extractArticles html
    let transitoryProvisions := extractTransitoryArticles html
    { emptyParsedLaw law with
      provisions := ex.1 ++ transitoryProvisions,
      definitions := ex.2 }

/-! ## Rate limiter and fetch client (src/scripts/lib/fetcher.ts) -/

def MAX_CONCURRENT : Nat := 5

def MIN_DELAY_MS : Nat := 300

/-- One `fetch` attempt as seen by `fetchWithRateLimit`: an HTTP response
(with its already-decoded body), an abort (timeout), or another thrown
error (which the source rethrows). -/
inductive HttpOutcome where
  | resp (status : Nat) (body contentType finalUrl : Str)
  | abortTimeout
  | errOther
deriving DecidableEq, Repr

structure FetchResult where
  status : Nat
  body : Str
  contentType : Str
  url : Str
deriving DecidableEq, Repr

/-- The retry loop of `fetchWithRateLimit` (fetcher.ts lines 100-143):
`o n` is the outcome of the `n`-th fetch attempt; returns the surfaced
result (or a thrown error) together with the number of fetch attempts
performed.  `fuel` is `maxRetries - attempt + 1`; the zero case is
unreachable for that value. -/
def fwrlLoop (o : Nat → HttpOutcome) (url : Str) (maxRetries : Nat) :
    Nat → Nat → Except Unit FetchResult × Nat
  | _, 0 => (Except.error (), 0)
  | attempt, fuel + 1 =>
    match o attempt with
    | .resp s b ct u =>
      if (s = 429 || 500 ≤ s) && decide (attempt < maxRetries) then
        let r := fwrlLoop o url maxRetries (attempt + 1) fuel
        (r.1, r.2 + 1)
      else (Except.ok ⟨s, b, ct, u⟩, 1)
    | .abortTimeout =>
      if decide (attempt < maxRetries) then
        let r := fwrlLoop o url maxRetries (attempt + 1) fuel
        (r.1, r.2 + 1)
      else (Except.ok ⟨0, [], [], url⟩, 1)
    | .errOther => (Except.error (), 1)

/-- `fetchWithRateLimit(url, maxRetries)` over an attempt oracle. -/
def fetchWithRateLimit (o : Nat → HttpOutcome) (url : Str)
    (maxRetries : Nat) : Except Unit FetchResult × Nat :=
  fwrlLoop o url maxRetries 0 (maxRetries + 1)

/-! ### Cooperative small-step semantics of `rateLimit`/`releaseSlot`
(fetcher.ts lines 27-48)

A caller of `fetchWithRateLimit` runs `rateLimit()` — a synchronous block
from the function entry to the first `await` — then possibly suspends on
the 50 ms slot poll or on the minimum-delay `setTimeout`, and on resuming
from the delay executes `lastRequestTime = Date.now(); activeRequests++`
without re-checking the slot condition.  `releaseSlot()` decrements with
a floor of zero.  The scheduler may advance the clock and run or wake
tasks; a timer never fires before its deadline. -/

inductive TaskSt where
  | ready
  | sleepSlot (wake : Nat)
  | sleepDelay (wake : Nat)
  | running
  | done
deriving DecidableEq, Repr

structure RLState where
  active : Nat
  last : Nat
  clock : Nat
  tasks : List TaskSt
deriving DecidableEq, Repr

/-- The synchronous prefix of `rateLimit()`: the concurrency-slot check,
then the minimum-delay check; only when neither suspends are
`lastRequestTime` and `activeRequests` updated (in the same synchronous
block). -/
def entryStep (st : RLState) : TaskSt × RLState :=
  if MAX_CONCURRENT ≤ st.active then
    (TaskSt.sleepSlot (st.clock + 50), st)
  else
    let elapsed := st.clock - st.last
    if elapsed < MIN_DELAY_MS then
      (TaskSt.sleepDelay (st.clock + (MIN_DELAY_MS - elapsed)), st)
    else
      (TaskSt.running, { st with last := st.clock, active := st.active + 1 })

inductive RLAct where
  | advance (d : Nat)
  | start (i : Nat)
  | wake (i : Nat)
  | release (i : Nat)
deriving DecidableEq, Repr

/-- One scheduler step; `none` when the action is not enabled.  Waking a
slot-poll sleeper re-runs the whole entry check (the `while` loop);
waking a delay sleeper resumes after the `await`: it sets
`lastRequestTime` and increments `activeRequests` directly. -/
def rlStep (st : RLState) : RLAct → Option RLState
  | .advance d => some { st with clock := st.clock + d }
  | .start i =>
    match st.tasks.get? i with
    | some .ready =>
      let p := entryStep st
      some { p.2 with tasks := p.2.tasks.set i p.1 }
    | _ => none
  | .wake i =>
    match st.tasks.get? i with
    | some (.sleepSlot w) =>
      if st.clock < w then none
      else
        let p := entryStep st
        some { p.2 with tasks := p.2.tasks.set i p.1 }
    | some (.sleepDelay w) =>
      if st.clock < w then none
      else
        some { st with last := st.clock, active := st.active + 1,
                       tasks := st.tasks.set i .running }
    | _ => none
  | .release i =>
    match st.tasks.get? i with
    | some .running =>
      some { st with active := st.active - 1, tasks := st.tasks.set i .done }
    | _ => none

def rlRun : RLState → List RLAct → Option RLState
  | st, [] => some st
  | st, a :: rest =>
    match rlStep st a with
    | some st2 => rlRun st2 rest
    | none => none

/-- `n` callers about to invoke `fetchWithRateLimit`; the module-level
`lastRequestTime` starts at `0` and the clock somewhere later. -/
def rlInit (n : Nat) : RLState :=
  ⟨0, 0, 1000, List.replicate n .ready⟩

/-! ## Binary-file fallback chain: `fetchLawFile`
(src/unnamed/part_003, lines 273-339; `fetchLawPdf` in
src/unnamed/part_006 lines 199-278 has the same candidate/attempt
structure without the format tag) -/

inductive FileFmt where
  | doc | pdf
deriving DecidableEq, Repr

structure FileCand where
  url : Str
  format : FileFmt
deriving DecidableEq, Repr

/-- One `fetch` attempt for a candidate URL. -/
inductive FileOutcome where
  | resp (status : Nat) (buf : List Nat)
  | abortTimeout
  | errOther
deriving DecidableEq, Repr

structure FileResult where
  status : Nat
  buffer : List Nat
  url : Str
  format : FileFmt
deriving DecidableEq, Repr

/-- Result of the per-candidate attempt loop (`attempt = 0..2`): return
a result, advance to the next candidate, or rethrow. -/
inductive CandOutcome where
  | creturn (r : FileResult)
  | cnext
  | cthrow
deriving DecidableEq, Repr

/-- Per-candidate attempt loop of `fetchLawFile`: 429/5xx retries (up to
attempt 2), 404 breaks to the next candidate, any other non-200 returns
immediately, 200 returns the body; a timeout retries and finally breaks
to the next candidate; other errors are rethrown. -/
def candAttempts (o : FileCand → Nat → FileOutcome) (c : FileCand) :
    Nat → Nat → CandOutcome
  | _, 0 => .cnext
  | attempt, fuel + 1 =>
    match o c attempt with
    | .resp s buf =>
      if (s = 429 || 500 ≤ s) && decide (attempt < 2) then
        candAttempts o c (attempt + 1) fuel
      else if s = 404 then .cnext
      else if s ≠ 200 then .creturn ⟨s, [], c.url, c.format⟩
      else .creturn ⟨200, buf, c.url, c.format⟩
    | .abortTimeout =>
      if decide (attempt < 2) then candAttempts o c (attempt + 1) fuel
      else .cnext
    | .errOther => .cthrow

/-- Candidate loop of `fetchLawFile`: first candidate to return wins;
exhaustion yields the not-found result carrying the first candidate's
URL and the hard-coded `doc` format. -/
def runCands (o : FileCand → Nat → FileOutcome) (first : FileCand) :
    List FileCand → Except Unit FileResult
  | [] => .ok ⟨404, [], first.url, .doc⟩
  | c :: rest =>
    match candAttempts o c 0 3 with
    | .creturn r => .ok r
    | .cnext => runCands o first rest
    | .cthrow => .error ()

/-- Candidate list built by `fetchLawFile`: explicit DOC override, the
conventional DOC URL, explicit PDF override, the conventional PDF URL. -/
def buildFileCandidates (code : Str) (docUrl pdfUrl : Option Str) :
    List FileCand :=
  (match docUrl with
   | some u => [⟨u, .doc⟩]
   | none => []) ++
  [⟨str "https://www.diputados.gob.mx/LeyesBiblio/doc/" ++ code ++ str ".doc", .doc⟩] ++
  (match pdfUrl with
   | some u => [⟨u, .pdf⟩]
   | none => []) ++
  [⟨str "https://www.diputados.gob.mx/LeyesBiblio/pdf/" ++ code ++ str ".pdf", .pdf⟩]

/-- `fetchLawFile(code, docUrl, pdfUrl)` over a per-candidate,
per-attempt oracle. -/
def fetchLawFile (o : FileCand → Nat → FileOutcome) (code : Str)
    (docUrl pdfUrl : Option Str) : Except Unit FileResult :=
  match buildFileCandidates code docUrl pdfUrl with
  | [] => .ok ⟨404, [], [], .doc⟩
  | c :: rest => runCands o c (c :: rest)

/-! ## Document assembler (src/unnamed/part_006, lines 1113-1232) -/

/-- `createFallbackSeed`: the single synthetic stub provision carrying
the law's title, description and source URL. -/
def createFallbackSeed (law : LawIndexEntry) : ParsedLaw :=
  { emptyParsedLaw law with
    provisions := [{
      provision_ref := str "art1",
      chapter := none,
      «section» := str "1",
      title := law.shortName ++ str " - Artículo 1",
      content := law.title ++ str ". " ++ law.description.getD [] ++
        str ". Texto completo disponible en: " ++ law.url }] }

/-- Outcome of `fetchLawHtml` for one law, as seen by
`fetchAndParseLaws`: either a thrown error or a `FetchResult`. -/
inductive FetchLawOutcome where
  | threw
  | got (r : FetchResult)
deriving DecidableEq, Repr

/-- Per-law decision logic of `fetchAndParseLaws` (fresh-fetch path,
src/unnamed/part_006 lines 1173-1232): non-200 fetches, parses with zero
provisions, and thrown errors all fall back to `createFallbackSeed`;
otherwise the parse result is the seed that is written. -/
def processLawFresh (law : LawIndexEntry) (out : FetchLawOutcome) : ParsedLaw :=
  match out with
  | .threw => createFallbackSeed law
  | .got r =>
    if r.status ≠ 200 then createFallbackSeed law
    else
      let parsed := parseMexicanHtml r.body law
      if parsed.provisions.length = 0 then createFallbackSeed law
      else parsed

/-! ## Auxiliary notions for the idempotence proof of `cleanPdfText` -/

/-- The first line of a text (characters up to the first newline). -/
def firstLine : Str → Str
  | [] => []
  | c :: cs => if c = '\n' then [] else c :: firstLine cs

/-- Newline-run well-formedness: `okFrom k s` says that, with `k`
newlines immediately preceding, no newline run of `s` ever exceeds
three. -/
def okFrom : Nat → Str → Bool
  | _, [] => true
  | k, c :: cs => if c = '\n' then decide (k < 3) && okFrom (k + 1) cs else okFrom 0 cs

/-! ## Concrete inputs used by the claim theorems -/

/-- A concrete law descriptor. -/
def lawMX : LawIndexEntry :=
  { id := str "lx", code := str "lx", title := str "Ley X",
    titleEn := none, shortName := str "LX", status := .in_force,
    issuedDate := str "2020-01-01", inForceDate := str "2020-01-02",
    url := str "https://www.diputados.gob.mx/LeyesBiblio/ref/lx.htm",
    pdfUrl := none, docUrl := none, description := none }

/-- Body with three articles under two headers and a trailing transitory
section with two ordinal-marked clauses (438 characters). -/
def c8text : Str := str "TÍTULO PRIMERO Disposiciones Generales\nArtículo 1.- Primer contenido del artículo con texto bastante largo aquí.\nCAPÍTULO II De los Derechos\nArtículo 2.- Segundo contenido del artículo también bastante largo aquí.\nArtículo 3.- Tercer contenido del artículo igualmente bastante largo.\nTRANSITORIOS\nPRIMERO.- La primera disposición transitoria con contenido suficiente.\nSEGUNDO.- La segunda disposición transitoria con contenido suficiente."

/-- An article whose content has a definitional cue phrase and one
enumerated definition. -/
def c9text : Str := str "Artículo 4.- Para los efectos de esta Ley se entenderá por: I. Término: significado; y demás texto."

/-- Body (267 characters) in which two distinct article headings,
`Artículo 1.` and `Artículo 1o.`, normalize to the same reference key. -/
def c3text : Str := str "Artículo 1.- Primera versión del artículo con contenido suficientemente largo para contar bien.\nArtículo 2.- Contenido intermedio suficientemente largo para contar también aquí.\nArtículo 1o.- Versión duplicada del artículo primero con contenido suficientemente largo."

/-- The cooperative interleaving of six concurrent callers: the first
passes both checks and dispatches; the other five pass the slot check
(fewer than five in flight), suspend on the 300 ms minimum-delay timer,
and after the clock advances each resumes and increments the in-flight
counter without re-checking the slot condition. -/
def c2Trace : List RLAct :=
  [.start 0, .start 1, .start 2, .start 3, .start 4, .start 5,
   .advance 300, .wake 1, .wake 2, .wake 3, .wake 4, .wake 5]

/-- A server that always answers 500. -/
def c4Oracle : Nat → HttpOutcome :=
  fun _ => .resp 500 (str "err") [] (str "u")

/-! ## Claim theorems -/

/-- C2: counterexample execution.  Under the cooperative small-step
semantics of `rateLimit`/`releaseSlot`, the schedule `c2Trace` of six
concurrent callers of `fetchWithRateLimit` is a legal run (every step
enabled, timers firing only at or after their deadlines) that drives the
in-flight counter `activeRequests` to 6, strictly above
`MAX_CONCURRENT = 5`: the slot check and the increment are separated by
the minimum-delay `await`, so all five delayed callers increment after
their checks have gone stale.  The fetcher's own header comment promises
"Max 5 concurrent requests", so the claim reflects the intent and the
code violates it. -/
theorem C2_active_exceeds_cap :
    rlRun (rlInit 6) c2Trace =
      some ⟨6, 1300, 1300, List.replicate 6 TaskSt.running⟩ ∧
    MAX_CONCURRENT < 6 := by
  constructor
  · rfl
  · decide

/-- C5: the article labels captured by the article-boundary pattern from
`Artículo 1o.`, `Artículo 1.` and `ARTÍCULO 1-` all normalize to the
single reference key `art1`, while the labels captured from
`Artículo 211 Bis 1.-` and `Artículo 212.` normalize to the distinct
keys `art211bis1` and `art212` (the trailing period/dash is required by
the boundary pattern itself). -/
theorem C5_ref_normalization :
    articleLineNum (str "Artículo 1o.") = some (str "1o") ∧
    articleLineNum (str "Artículo 1.") = some (str "1") ∧
    articleLineNum (str "ARTÍCULO 1-") = some (str "1") ∧
    articleLineNum (str "Artículo 211 Bis 1.-") = some (str "211 Bis 1") ∧
    articleLineNum (str "Artículo 212.") = some (str "212") ∧
    normalizeArticleRef (jsTrim (str "1o")) = str "art1" ∧
    normalizeArticleRef (jsTrim (str "1")) = str "art1" ∧
    normalizeArticleRef (jsTrim (str "211 Bis 1")) = str "art211bis1" ∧
    normalizeArticleRef (jsTrim (str "212")) = str "art212" ∧
    str "art211bis1" ≠ str "art212" := by
  refine ⟨rfl, rfl, rfl, rfl, rfl, rfl, rfl, rfl, rfl, ?_⟩
  decide

set_option maxRecDepth 40000 in
/-- C8: on `c8text` (three article-marker lines under two hierarchical
headers, then a transitory section with two ordinal-marked clauses),
`parseMexicanText` yields exactly the three regular provisions in source
order followed by exactly the two transitory provisions keyed `trans1`,
`trans2`, and each regular provision's chapter equals the nearest
preceding header line. -/
theorem C8_three_articles_two_transitory :
    (parseMexicanText c8text lawMX).provisions.map
        (fun p => (p.provision_ref, p.chapter, p.«section»)) =
      [(str "art1", some (str "TÍTULO PRIMERO Disposiciones Generales"), str "1"),
       (str "art2", some (str "CAPÍTULO II De los Derechos"), str "2"),
       (str "art3", some (str "CAPÍTULO II De los Derechos"), str "3"),
       (str "trans1", some (str "TRANSITORIOS"), str "Transitorio 1"),
       (str "trans2", some (str "TRANSITORIOS"), str "Transitorio 2")] := by
  decide

/-- C9: on `c9text`, an extracted article whose content carries a
definitional cue phrase and the enumerated pattern
`I. Término: significado;`, definition extraction emits exactly one
`Definition`, whose term is `Término` and whose source provision is that
article's reference key `art4`. -/
theorem C9_definition_extraction :
    (extractArticlesFromText c9text).2 =
      [⟨str "Término", str "Término: significado", some (str "art4")⟩] ∧
    (extractArticlesFromText c9text).1.map (fun p => p.provision_ref) =
      [str "art4"] := by
  exact ⟨rfl, rfl⟩

/-- Retry-loop invariant: while every attempt yields status 500, the
loop performs exactly `fuel` attempts and surfaces the 500 result. -/
theorem fwrl_const500 (o : Nat → HttpOutcome) (url : Str) (r : Nat)
    (h : ∀ n, ∃ b ct u, o n = .resp 500 b ct u) :
    ∀ fuel attempt, attempt + fuel = r + 1 → 0 < fuel →
      (fwrlLoop o url r attempt fuel).2 = fuel ∧
      ∃ b ct u, (fwrlLoop o url r attempt fuel).1 = .ok ⟨500, b, ct, u⟩ := by
  intro fuel
  induction fuel with
  | zero => intro attempt _ hpos; omega
  | succ f ih =>
    intro attempt hsum _
    obtain ⟨b, ct, u, ho⟩ := h attempt
    by_cases har : attempt < r
    · have hf : 0 < f := by omega
      obtain ⟨h1, h2⟩ := ih (attempt + 1) (by omega) hf
      simp only [fwrlLoop, ho]
      rw [if_pos (by simp [har])]
      exact ⟨by simpa using h1, h2⟩
    · have hf : f = 0 := by omega
      subst hf
      simp only [fwrlLoop, ho]
      rw [if_neg (by simp [har])]
      exact ⟨rfl, b, ct, u, rfl⟩

/-- C4: with retry cap `r`, if every attempted HTTP request yields
status 500 then `fetchWithRateLimit` performs exactly `r + 1` fetch
attempts and surfaces the failed `FetchResult` with status 500. -/
theorem C4_retries_then_surfaces_500 (o : Nat → HttpOutcome) (url : Str)
    (r : Nat) (h : ∀ n, ∃ b ct u, o n = .resp 500 b ct u) :
    (fetchWithRateLimit o url r).2 = r + 1 ∧
    ∃ b ct u, (fetchWithRateLimit o url r).1 = Except.ok ⟨500, b, ct, u⟩ :=
  fwrl_const500 o url r h (r + 1) 0 (by omega) (by omega)

/-- Witness for C4 at `maxRetries = 3`: exactly 4 attempts, surfaced
status 500. -/
theorem C4_witness :
    (fetchWithRateLimit c4Oracle (str "u") 3).2 = 3 + 1 ∧
    ∃ b ct u, (fetchWithRateLimit c4Oracle (str "u") 3).1 =
      Except.ok ⟨500, b, ct, u⟩ :=
  C4_retries_then_surfaces_500 c4Oracle (str "u") 3
    (fun _ => ⟨str "err", [], str "u", rfl⟩)

/-- A 404 on a candidate's first attempt advances the chain without
consulting that candidate again. -/
theorem runCands_404_advances (o : FileCand → Nat → FileOutcome)
    (first c : FileCand) (rest : List FileCand) (buf : List Nat)
    (h : o c 0 = .resp 404 buf) :
    runCands o first (c :: rest) = runCands o first rest := by
  simp only [runCands, candAttempts, h]
  norm_num

/-- C7: the binary-file fallback chain of `fetchLawFile`.
(1) a 404 on a candidate advances to the next candidate without further
retries of it; (2) any other non-200, non-retryable (neither 429 nor
5xx) status returns that result immediately, with an empty buffer and
the candidate's URL and format, without trying later candidates; (3) a
200 returns immediately with the body and the candidate's format tag;
(4) if every candidate answers 404 the chain returns the not-found
result (status 404, empty buffer) carrying the first candidate's URL and
the `doc` format; (5) the first candidate built by `fetchLawFile` always
has the `doc` format, so the hard-coded `doc` tag of the not-found
result is the first candidate's format. -/
theorem C7_fallback_chain :
    (∀ (o : FileCand → Nat → FileOutcome) (first c : FileCand)
       (rest : List FileCand) (buf : List Nat),
       o c 0 = .resp 404 buf →
       runCands o first (c :: rest) = runCands o first rest) ∧
    (∀ (o : FileCand → Nat → FileOutcome) (first c : FileCand)
       (rest : List FileCand) (s : Nat) (buf : List Nat),
       o c 0 = .resp s buf → s ≠ 200 → s ≠ 404 → s ≠ 429 → s < 500 →
       runCands o first (c :: rest) =
         Except.ok ⟨s, [], c.url, c.format⟩) ∧
    (∀ (o : FileCand → Nat → FileOutcome) (first c : FileCand)
       (rest : List FileCand) (buf : List Nat),
       o c 0 = .resp 200 buf →
       runCands o first (c :: rest) =
         Except.ok ⟨200, buf, c.url, c.format⟩) ∧
    (∀ (o : FileCand → Nat → FileOutcome) (first : FileCand)
       (cs : List FileCand),
       (∀ c ∈ cs, ∃ buf, o c 0 = .resp 404 buf) →
       runCands o first cs = Except.ok ⟨404, [], first.url, FileFmt.doc⟩) ∧
    (∀ (code : Str) (docUrl pdfUrl : Option Str) (c : FileCand)
       (rest : List FileCand),
       buildFileCandidates code docUrl pdfUrl = c :: rest →
       c.format = FileFmt.doc) := by
  refine ⟨runCands_404_advances, ?_, ?_, ?_, ?_⟩
  · intro o first c rest s buf h h200 h404 h429 h500
    have hb1 : decide (s = 429) = false := by simp [h429]
    have hb2 : decide (500 ≤ s) = false := by simp; omega
    simp only [runCands, candAttempts, h, hb1, hb2, Bool.false_or,
      Bool.false_and, Bool.if_false_left]
    simp [h200, h404]
  · intro o first c rest buf h
    simp only [runCands, candAttempts, h]
    norm_num
  · intro o first cs h
    induction cs with
    | nil => rfl
    | cons c rest ih =>
      obtain ⟨buf, hc⟩ := h c (List.mem_cons_self c rest)
      rw [runCands_404_advances o first c rest buf hc]
      exact ih (fun d hd => h d (List.mem_cons_of_mem c hd))
  · intro code docUrl pdfUrl c rest heq
    cases docUrl <;> simp only [buildFileCandidates, List.nil_append,
      List.cons_append, List.cons.injEq] at heq <;>
      rw [← heq.1]

/-- Witness for C7: a concrete oracle answering 404 everywhere exercises
the advancing conjunct and the exhaustion conjunct; a 403 on the first
candidate exercises the immediate-return conjunct. -/
theorem C7_witness :
    runCands (fun _ _ => FileOutcome.resp 404 []) ⟨str "u1", .doc⟩
        [⟨str "u1", .doc⟩, ⟨str "u2", .pdf⟩] =
      Except.ok ⟨404, [], str "u1", FileFmt.doc⟩ ∧
    runCands (fun _ _ => FileOutcome.resp 403 []) ⟨str "u1", .doc⟩
        [⟨str "u1", .doc⟩, ⟨str "u2", .pdf⟩] =
      Except.ok ⟨403, [], str "u1", FileFmt.doc⟩ ∧
    runCands (fun _ _ => FileOutcome.resp 200 [7]) ⟨str "u1", .doc⟩
        [⟨str "u1", .doc⟩] =
      Except.ok ⟨200, [7], str "u1", FileFmt.doc⟩ := by
  refine ⟨C7_fallback_chain.2.2.2.1 _ _ _ (fun c _ => ⟨[], rfl⟩),
    C7_fallback_chain.2.1 _ _ _ _ 403 [] rfl (by omega) (by omega) (by omega)
      (by omega),
    C7_fallback_chain.2.2.1 _ _ _ _ [7] rfl⟩

/-- C1: the per-law pipeline decision never yields zero provisions: a
non-200 fetch, a parse with zero provisions, and a thrown error each
substitute exactly the single synthetic stub provision of
`createFallbackSeed` (which carries the law's own title, description and
source URL in its content), and a successful parse is only kept when it
has at least one provision. -/
theorem C1_never_zero_provisions (law : LawIndexEntry)
    (out : FetchLawOutcome) :
    1 ≤ (processLawFresh law out).provisions.length ∧
    (createFallbackSeed law).provisions.length = 1 ∧
    (out = .threw → processLawFresh law out = createFallbackSeed law) ∧
    (∀ r, out = .got r → r.status ≠ 200 →
       processLawFresh law out = createFallbackSeed law) ∧
    (∀ r, out = .got r → (parseMexicanHtml r.body law).provisions = [] →
       processLawFresh law out = createFallbackSeed law) ∧
    (createFallbackSeed law).provisions.map (fun p => p.content) =
      [law.title ++ str ". " ++ law.description.getD [] ++
       str ". Texto completo disponible en: " ++ law.url] := by
  refine ⟨?_, rfl, ?_, ?_, ?_, rfl⟩
  · cases out with
    | threw => simp [processLawFresh, createFallbackSeed, emptyParsedLaw]
    | got r =>
      by_cases h200 : r.status = 200
      · by_cases hlen : (parseMexicanHtml r.body law).provisions.length = 0
        · simp [processLawFresh, h200, hlen, createFallbackSeed, emptyParsedLaw]
        · simp only [processLawFresh, h200, ne_eq, not_true_eq_false,
            if_false, hlen, if_neg hlen]
          omega
      · simp [processLawFresh, h200, createFallbackSeed, emptyParsedLaw]
  · intro hthrew
    subst hthrew
    rfl
  · intro r hout hst
    subst hout
    simp [processLawFresh, hst]
  · intro r hout hprov
    subst hout
    by_cases h200 : r.status = 200
    · simp [processLawFresh, h200, hprov]
    · simp [processLawFresh, h200]

/-- Witness for C1: a thrown fetch and a 500 fetch both yield the stub,
and the stub has one provision. -/
theorem C1_witness :
    processLawFresh lawMX .threw = createFallbackSeed lawMX ∧
    1 ≤ (processLawFresh lawMX (.got ⟨500, [], [], []⟩)).provisions.length ∧
    processLawFresh lawMX (.got ⟨500, [], [], []⟩) = createFallbackSeed lawMX := by
  refine ⟨(C1_never_zero_provisions lawMX .threw).2.2.1 rfl,
    (C1_never_zero_provisions lawMX (.got ⟨500, [], [], []⟩)).1,
    (C1_never_zero_provisions lawMX (.got ⟨500, [], [], []⟩)).2.2.2.1
      ⟨500, [], [], []⟩ rfl (by decide)⟩

/-- C10: both parsers carry the descriptor's metadata fields through
unchanged on every input, including the error-page/short-text
short-circuit branches. -/
theorem C10_metadata_passthrough (text : Str) (law : LawIndexEntry) :
    ((parseMexicanText text law).id = law.id ∧
     (parseMexicanText text law).title = law.title ∧
     (parseMexicanText text law).title_en = law.titleEn ∧
     (parseMexicanText text law).short_name = law.shortName ∧
     (parseMexicanText text law).status = law.status ∧
     (parseMexicanText text law).issued_date = law.issuedDate ∧
     (parseMexicanText text law).in_force_date = law.inForceDate ∧
     (parseMexicanText text law).url = law.url) ∧
    ((parseMexicanHtml text law).id = law.id ∧
     (parseMexicanHtml text law).title = law.title ∧
     (parseMexicanHtml text law).title_en = law.titleEn ∧
     (parseMexicanHtml text law).short_name = law.shortName ∧
     (parseMexicanHtml text law).status = law.status ∧
     (parseMexicanHtml text law).issued_date = law.issuedDate ∧
     (parseMexicanHtml text law).in_force_date = law.inForceDate ∧
     (parseMexicanHtml text law).url = law.url) := by
  unfold parseMexicanText parseMexicanHtml
  constructor <;> split <;> simp [emptyParsedLaw]

set_option maxRecDepth 40000 in
/-- C3: counterexample.  On `c3text` the combined provision list of
`parseMexicanText` is keyed `art1, art2, art1`: the headings
`Artículo 1.` and `Artículo 1o.` normalize to the same reference key, so
the keys are not pairwise distinct. -/
theorem C3_counterexample :
    (parseMexicanText c3text lawMX).provisions.map
        (fun p => p.provision_ref) =
      [str "art1", str "art2", str "art1"] ∧
    ¬ ((parseMexicanText c3text lawMX).provisions.map
        (fun p => p.provision_ref)).Nodup := by
  constructor
  · rfl
  · decide

/-- Injectivity of the sequential transitory keys in their actual range
(at most 20 entries per document). -/
theorem transRef_inj :
    ∀ i < 20, ∀ j < 20,
      str "trans" ++ natStr (i + 1) = str "trans" ++ natStr (j + 1) →
      i = j := by
  decide

/-- Every provision built by the transitory loop carries a sequential
key `trans(j+1)` for some in-range index `j`. -/
theorem buildTrans_ref_shape (lines : List Str) (total : Nat) :
    ∀ ps i, ∀ q ∈ buildTransAux lines total i ps,
      ∃ j, i ≤ j ∧ j < 20 ∧
        q.provision_ref = str "trans" ++ natStr (j + 1) := by
  intro ps
  induction ps with
  | nil =>
    intro i q hq
    simp [buildTransAux] at hq
  | cons p rest ih =>
    intro i q hq
    simp only [buildTransAux] at hq
    by_cases h20 : 20 ≤ i
    · rw [if_pos h20] at hq
      simp at hq
    · rw [if_neg h20] at hq
      split at hq
      · obtain ⟨j, hij, hj20, hr⟩ := ih (i + 1) q hq
        exact ⟨j, by omega, hj20, hr⟩
      · rcases List.mem_cons.mp hq with heq | hmem
        · exact ⟨i, le_refl i, by omega, by rw [heq]⟩
        · obtain ⟨j, hij, hj20, hr⟩ := ih (i + 1) q hmem
          exact ⟨j, by omega, hj20, hr⟩

/-- The transitory loop's keys are pairwise distinct. -/
theorem buildTrans_nodup (lines : List Str) (total : Nat) :
    ∀ ps i, ((buildTransAux lines total i ps).map
      (fun p => p.provision_ref)).Nodup := by
  intro ps
  induction ps with
  | nil => intro i; simp [buildTransAux]
  | cons p rest ih =>
    intro i
    simp only [buildTransAux]
    by_cases h20 : 20 ≤ i
    · rw [if_pos h20]; simp
    · rw [if_neg h20]
      split
      · exact ih (i + 1)
      · rw [List.map_cons, List.nodup_cons]
        refine ⟨?_, ih (i + 1)⟩
        intro hmem
        obtain ⟨q, hq, hqr⟩ := List.mem_map.mp hmem
        obtain ⟨j, hij, hj20, hr⟩ := buildTrans_ref_shape lines total rest (i + 1) q hq
        have hqr2 : q.provision_ref = str "trans" ++ natStr (i + 1) := hqr
        have := transRef_inj i (by omega) j hj20 (by rw [← hqr2, hr])
        omega

/-- The provision built by `mkArticle` is keyed by
`normalizeArticleRef` of the block's article number. -/
theorem mkArticle_ref (lines : List Str) (b : ArticleBlock) (endLine : Nat)
    (p : ParsedProvision) (ds : List ParsedDefinition)
    (h : mkArticle lines b endLine = some (p, ds)) :
    p.provision_ref = normalizeArticleRef b.num := by
  have h2 : mkArticleCore b
      (let text := cleanupArticleText (jsTrim (joinLines (sliceLines lines b.startLine endLine)))
       if 8000 < text.length then text.take 8000 else text) = some (p, ds) := h
  revert h2
  generalize (let text := cleanupArticleText (jsTrim (joinLines (sliceLines lines b.startLine endLine)))
       if 8000 < text.length then text.take 8000 else text) = t0
  intro h2
  unfold mkArticleCore at h2
  split at h2
  · exact Option.noConfusion h2
  · exact (congrArg (fun x => x.1.provision_ref) (Option.some.inj h2)).symm

/-- Every regular provision assembled from the article blocks is keyed
by `normalizeArticleRef` of some raw article number. -/
theorem assembleArticles_ref_shape (lines : List Str) (tstart : Option Nat)
    (total : Nat) :
    ∀ bs, ∀ p ∈ (assembleArticles lines tstart total bs).1,
      ∃ raw, p.provision_ref = normalizeArticleRef raw := by
  intro bs
  induction bs with
  | nil => intro p hp; simp [assembleArticles] at hp
  | cons b rest ih =>
    intro p hp
    cases rest with
    | nil =>
      simp only [assembleArticles] at hp
      split at hp
      · next pd heq =>
        rcases List.mem_singleton.mp hp with heq2
        exact ⟨b.num, by rw [heq2]; exact mkArticle_ref lines b _ pd.1 pd.2 (by rw [heq])⟩
      · simp at hp
    | cons b2 rest2 =>
      simp only [assembleArticles] at hp
      split at hp
      · next pd heq =>
        rcases List.mem_cons.mp hp with heq2 | hmem
        · exact ⟨b.num, by rw [heq2]; exact mkArticle_ref lines b _ pd.1 pd.2 (by rw [heq])⟩
        · exact ih p hmem
      · exact ih p hp

/-- `normalizeArticleRef` always starts with the letter `a` (either the
key already starts with `art` or `art` is prepended). -/
theorem normalizeArticleRef_head (raw : Str) :
    ∃ rest, normalizeArticleRef raw = 'a' :: rest := by
  unfold normalizeArticleRef
  by_cases h : List.isPrefixOf (str "art")
      (removeAllWS (ordReplAux ((jsTrim (jsLower raw)).length + 1) (jsTrim (jsLower raw))))
  · obtain ⟨t, ht⟩ := List.isPrefixOf_iff_prefix.mp h
    simp only [h, if_true]
    exact ⟨'r' :: 't' :: t, by rw [← ht]; rfl⟩
  · simp only [h, if_false]
    exact ⟨_, rfl⟩

/-- The sequential transitory keys always start with the letter `t`. -/
theorem transRef_head (n : Nat) :
    ∃ rest, str "trans" ++ natStr n = 't' :: rest :=
  ⟨_, rfl⟩

set_option maxRecDepth 2000 in
/-- C3 (amended): within one parsed document the transitory provisions'
reference keys are pairwise distinct and no regular provision's key
coincides with any transitory provision's key (regular keys start with
`art`, transitory keys with `trans`); regular articles may repeat a key
when distinct headings normalize identically (see
`C3_counterexample`).  The first conjunct pins the document's provision
list to the actual regular and transitory extractor outputs (empty on
the short-text short-circuit); the other two state the key properties of
those actual outputs. -/
theorem C3_amended_key_distinctness (text : Str) (law : LawIndexEntry) :
    (parseMexicanText text law).provisions =
      (if text.length < 200 then []
       else (extractArticlesFromText (cleanPdfText text)).1 ++
         extractTransitoryFromText (cleanPdfText text)) ∧
    ((extractTransitoryFromText (cleanPdfText text)).map
        (fun p => p.provision_ref)).Nodup ∧
    (∀ p ∈ (extractArticlesFromText (cleanPdfText text)).1,
       ∀ q ∈ extractTransitoryFromText (cleanPdfText text),
       p.provision_ref ≠ q.provision_ref) := by
  refine ⟨?_, ?_, ?_⟩
  · by_cases hlen : text.length < 200
    · simp [parseMexicanText, hlen, emptyParsedLaw]
    · simp [parseMexicanText, hlen]
  · unfold extractTransitoryFromText
    split
    · simp
    · exact buildTrans_nodup _ _ _ 0
  · intro p hp q hq
    have hshape : ∃ raw, p.provision_ref = normalizeArticleRef raw := by
      unfold extractArticlesFromText at hp
      exact assembleArticles_ref_shape _ _ _ _ p hp
    obtain ⟨raw, hpr⟩ := hshape
    have hq' : ∃ j, q.provision_ref = str "trans" ++ natStr (j + 1) := by
      unfold extractTransitoryFromText at hq
      split at hq
      · simp at hq
      · obtain ⟨j, _, _, hr⟩ := buildTrans_ref_shape _ _ _ 0 q hq
        exact ⟨j, hr⟩
    obtain ⟨j, hqr⟩ := hq'
    obtain ⟨ra, hra⟩ := normalizeArticleRef_head raw
    obtain ⟨rt, hrt⟩ := transRef_head (j + 1)
    rw [hpr, hra, hqr, hrt]
    intro hcontra
    have : 'a' = 't' := (List.cons.injEq _ _ _ _).mp hcontra |>.1
    exact absurd this (by decide)

theorem splitLines_shape : ∀ s : Str, ∃ h t, splitLines s = h :: t := by
  intro s
  induction s with
  | nil => exact ⟨[], [], rfl⟩
  | cons c cs ih =>
    obtain ⟨h, t, ht⟩ := ih
    simp only [splitLines, ht]
    split <;> exact ⟨_, _, rfl⟩

theorem splitLines_cons_nl (x : Str) :
    splitLines ('\n' :: x) = [] :: splitLines x := by
  obtain ⟨h, t, ht⟩ := splitLines_shape x
  simp [splitLines, ht]

theorem splitLines_head : ∀ s : Str, ∃ t', splitLines s = firstLine s :: t' := by
  intro s
  induction s with
  | nil => exact ⟨[], rfl⟩
  | cons c cs ih =>
    obtain ⟨t', ht⟩ := ih
    by_cases hc : c = '\n'
    · subst hc
      rw [splitLines_cons_nl]
      exact ⟨_, rfl⟩
    · simp only [splitLines, ht, if_neg hc, firstLine]
      exact ⟨t', rfl⟩

theorem splitLines_cons_ne (c : Char) (hc : c ≠ '\n') (z : Str) :
    ∃ tz, splitLines z = firstLine z :: tz ∧
      splitLines (c :: z) = (c :: firstLine z) :: tz := by
  obtain ⟨tz, hz⟩ := splitLines_head z
  exact ⟨tz, hz, by simp only [splitLines, hz, if_neg hc]⟩

theorem splitLines_no_nl : ∀ (s : Str) (l : Str), l ∈ splitLines s → '\n' ∉ l := by
  intro s
  induction s with
  | nil =>
    intro l hl
    simp [splitLines] at hl
    subst hl
    simp
  | cons c cs ih =>
    intro l hl
    by_cases hc : c = '\n'
    · subst hc
      rw [splitLines_cons_nl] at hl
      rcases List.mem_cons.mp hl with rfl | h2
      · simp
      · exact ih l h2
    · obtain ⟨tz, hz, hcz⟩ := splitLines_cons_ne c hc cs
      rw [hcz] at hl
      rcases List.mem_cons.mp hl with rfl | h2
      · intro hmem
        rcases List.mem_cons.mp hmem with heq | h3
        · exact hc heq.symm
        · exact ih (firstLine cs) (hz ▸ List.mem_cons_self _ _) h3
      · exact ih l (hz ▸ List.mem_cons_of_mem _ h2)

theorem joinLines_splitLines : ∀ s : Str, joinLines (splitLines s) = s := by
  intro s
  induction s with
  | nil => rfl
  | cons c cs ih =>
    by_cases hc : c = '\n'
    · subst hc
      rw [splitLines_cons_nl]
      obtain ⟨h, t, ht⟩ := splitLines_shape cs
      rw [ht] at ih ⊢
      simpa [joinLines] using ih
    · obtain ⟨tz, hz, hcz⟩ := splitLines_cons_ne c hc cs
      rw [hcz]
      rw [hz] at ih
      cases tz with
      | nil => simpa [joinLines] using ih
      | cons t1 t2 => simpa [joinLines] using ih

theorem splitLines_of_no_nl : ∀ l : Str, '\n' ∉ l → splitLines l = [l] := by
  intro l
  induction l with
  | nil => intro _; rfl
  | cons c cs ih =>
    intro h
    have hc : c ≠ '\n' := fun he => h (he ▸ List.mem_cons_self _ _)
    have hcs := ih (fun hm => h (List.mem_cons_of_mem _ hm))
    simp only [splitLines, hcs, if_neg hc]

theorem splitLines_append_nl : ∀ (l : Str), '\n' ∉ l → ∀ y : Str,
    splitLines (l ++ '\n' :: y) = l :: splitLines y := by
  intro l
  induction l with
  | nil => intro _ y; exact splitLines_cons_nl y
  | cons c cs ih =>
    intro h y
    have hc : c ≠ '\n' := fun he => h (he ▸ List.mem_cons_self _ _)
    have hcs := ih (fun hm => h (List.mem_cons_of_mem _ hm)) y
    simp only [List.cons_append, splitLines, List.append_eq, hcs, if_neg hc]

theorem splitLines_joinLines : ∀ L : List Str, L ≠ [] →
    (∀ l ∈ L, '\n' ∉ l) → splitLines (joinLines L) = L := by
  intro L
  induction L with
  | nil => intro h; exact absurd rfl h
  | cons l ls ih =>
    intro _ hnl
    cases ls with
    | nil =>
      simp only [joinLines]
      exact splitLines_of_no_nl l (hnl l (List.mem_cons_self _ _))
    | cons l2 ls2 =>
      have hstep : joinLines (l :: l2 :: ls2) = l ++ '\n' :: joinLines (l2 :: ls2) := rfl
      rw [hstep, splitLines_append_nl l (hnl l (List.mem_cons_self _ _)),
        ih (by simp) (fun x hx => hnl x (List.mem_cons_of_mem _ hx))]

theorem splitLines_replicate_nl : ∀ (m : Nat) (y : Str),
    splitLines (List.replicate m '\n' ++ y) =
      List.replicate m ([] : Str) ++ splitLines y := by
  intro m
  induction m with
  | zero => intro y; rfl
  | succ n ih =>
    intro y
    simp only [List.replicate_succ, List.cons_append, splitLines_cons_nl, ih]

theorem collapseAux_succ_head : ∀ (s : Str) (k : Nat),
    ∃ rest, collapseAux (k + 1) s = '\n' :: rest := by
  intro s
  induction s with
  | nil =>
    intro k
    simp only [collapseAux, emitRun]
    split
    · exact ⟨_, rfl⟩
    · exact ⟨_, rfl⟩
  | cons c cs ih =>
    intro k
    by_cases hc : c = '\n'
    · subst hc
      simp only [collapseAux, if_pos rfl]
      exact ih (k + 1)
    · simp only [collapseAux, if_neg hc, emitRun]
      split
      · exact ⟨_, rfl⟩
      · exact ⟨_, rfl⟩

theorem firstLine_collapseAux : ∀ s : Str,
    firstLine (collapseAux 0 s) = firstLine s := by
  intro s
  induction s with
  | nil => rfl
  | cons c cs ih =>
    by_cases hc : c = '\n'
    · subst hc
      simp only [collapseAux, if_pos rfl, firstLine]
      obtain ⟨rest, hr⟩ := collapseAux_succ_head cs 0
      rw [hr]
      simp [firstLine]
    · simp only [collapseAux, if_neg hc, emitRun, List.replicate, List.nil_append,
        firstLine, if_neg hc, ih]

theorem filterLen_collapseAux (p : Str → Bool) (hp : p [] = false) :
    ∀ (s : Str) (k : Nat),
      ((splitLines (collapseAux k s)).filter p).length =
      ((splitLines s).filter p).length := by
  have hlcons : ∀ (x : Str) (xs : List Str),
      (List.filter p (x :: xs)).length =
        (if p x then 1 else 0) + (List.filter p xs).length := by
    intro x xs
    cases hx : p x <;> simp [List.filter_cons, hx] <;> omega
  intro s
  induction s with
  | nil =>
    intro k
    simp only [collapseAux, emitRun]
    rw [show (List.replicate (if 4 ≤ k then 3 else k) '\n' : Str) =
        List.replicate (if 4 ≤ k then 3 else k) '\n' ++ [] from (List.append_nil _).symm,
      splitLines_replicate_nl]
    simp [List.filter_append, List.filter_replicate, hp, splitLines, List.filter]
  | cons c cs ih =>
    intro k
    by_cases hc : c = '\n'
    · subst hc
      have hstep : collapseAux k ('\n' :: cs) = collapseAux (k + 1) cs := rfl
      rw [hstep, ih (k + 1), splitLines_cons_nl, hlcons]
      simp [hp]
    · have hstep : collapseAux k (c :: cs) =
          emitRun k ++ c :: collapseAux 0 cs := by
        simp [collapseAux, hc]
      rw [hstep]
      simp only [emitRun]
      rw [splitLines_replicate_nl]
      obtain ⟨tz, hz, hcz⟩ := splitLines_cons_ne c hc (collapseAux 0 cs)
      rw [hcz, firstLine_collapseAux]
      obtain ⟨tcs, hcs2, hccs⟩ := splitLines_cons_ne c hc cs
      rw [hccs]
      have hih := ih 0
      rw [hz, firstLine_collapseAux, hcs2] at hih
      rw [hlcons, hlcons] at hih
      rw [List.filter_append, List.length_append, hlcons, hlcons]
      simp only [List.filter_replicate, hp, Bool.false_eq_true, if_false,
        List.length_nil]
      omega

theorem mem_splitLines_collapseNl (s : Str) (l : Str)
    (hl : l ∈ splitLines (collapseNl s)) : l = [] ∨ l ∈ splitLines s := by
  by_cases hnil : l = []
  · exact Or.inl hnil
  · right
    have hp : (fun x : Str => x == l) [] = false := by
      cases l with
      | nil => exact absurd rfl hnil
      | cons a as => rfl
    have hmemf : l ∈ (splitLines (collapseNl s)).filter (fun x => x == l) :=
      List.mem_filter.mpr ⟨hl, by simp⟩
    have h1 : 0 < ((splitLines (collapseNl s)).filter (fun x => x == l)).length :=
      List.length_pos.mpr (List.ne_nil_of_mem hmemf)
    have h2 : 0 < ((splitLines s).filter (fun x => x == l)).length := by
      have heq := filterLen_collapseAux (fun x : Str => x == l) hp s 0
      unfold collapseNl at h1
      omega
    have hne : (splitLines s).filter (fun x => x == l) ≠ [] := by
      intro he
      rw [he] at h2
      simp at h2
    obtain ⟨x, hx⟩ := List.exists_mem_of_ne_nil _ hne
    have hmf := List.mem_filter.mp hx
    exact (by simpa using hmf.2 : x = l) ▸ hmf.1

theorem countTrim_collapseNl (s : Str) (v : Str) (hv : v ≠ []) :
    countTrim (splitLines (collapseNl s)) v = countTrim (splitLines s) v := by
  have hp : (fun x : Str => jsTrim x == v) [] = false := by
    cases v with
    | nil => exact absurd rfl hv
    | cons a as => rfl
  exact filterLen_collapseAux (fun x : Str => jsTrim x == v) hp s 0

theorem countTrim_cons (x : Str) (L : List Str) (v : Str) :
    countTrim (x :: L) v =
      (if jsTrim x == v then 1 else 0) + countTrim L v := by
  cases h : (jsTrim x == v) <;> simp [countTrim, List.filter_cons, h] <;> omega

theorem countTrim_filter_le (q : Str → Bool) (L : List Str) (v : Str) :
    countTrim (L.filter q) v ≤ countTrim L v := by
  induction L with
  | nil => simp [countTrim]
  | cons l ls ih =>
    rw [List.filter_cons, countTrim_cons]
    by_cases hq : q l = true
    · rw [if_pos hq, countTrim_cons]
      omega
    · rw [if_neg hq]
      omega

theorem okFrom_replicate (rest : Str) :
    ∀ (m c : Nat), c + m ≤ 3 →
      okFrom c (List.replicate m '\n' ++ rest) = okFrom (c + m) rest := by
  intro m
  induction m with
  | zero => intro c _; simp
  | succ n ih =>
    intro c hc
    have hstep : okFrom c (List.replicate (n + 1) '\n' ++ rest) =
        (decide (c < 3) && okFrom (c + 1) (List.replicate n '\n' ++ rest)) := rfl
    rw [hstep, decide_eq_true (show c < 3 by omega), Bool.true_and,
      ih (c + 1) (by omega)]
    congr 1
    omega

theorem collapseAux_okFrom : ∀ (s : Str) (k : Nat),
    okFrom 0 (collapseAux k s) = true := by
  intro s
  induction s with
  | nil =>
    intro k
    simp only [collapseAux, emitRun]
    rw [show (List.replicate (if 4 ≤ k then 3 else k) '\n' : Str) =
        List.replicate (if 4 ≤ k then 3 else k) '\n' ++ [] from (List.append_nil _).symm,
      okFrom_replicate _ _ 0 (by split <;> omega)]
    rfl
  | cons c cs ih =>
    intro k
    by_cases hc : c = '\n'
    · subst hc
      have hstep : collapseAux k ('\n' :: cs) = collapseAux (k + 1) cs := rfl
      rw [hstep]
      exact ih (k + 1)
    · have hstep : collapseAux k (c :: cs) = emitRun k ++ c :: collapseAux 0 cs := by
        simp [collapseAux, hc]
      rw [hstep]
      simp only [emitRun]
      rw [okFrom_replicate _ _ 0 (by split <;> omega)]
      simp only [Nat.zero_add, okFrom, if_neg hc]
      exact ih 0

theorem collapseAux_of_okFrom : ∀ (s : Str) (c : Nat), c ≤ 3 →
    okFrom c s = true → collapseAux c s = List.replicate c '\n' ++ s := by
  intro s
  induction s with
  | nil =>
    intro c hc _
    simp only [collapseAux, emitRun]
    rw [if_neg (by omega)]
    simp
  | cons ch cs ih =>
    intro c hc hok
    by_cases hch : ch = '\n'
    · subst hch
      have hok2 : (decide (c < 3) && okFrom (c + 1) cs) = true := hok
      rw [Bool.and_eq_true, decide_eq_true_eq] at hok2
      have hstep : collapseAux c ('\n' :: cs) = collapseAux (c + 1) cs := rfl
      rw [hstep, ih (c + 1) (by omega) hok2.2, List.replicate_succ']
      simp
    · have hok2 : okFrom 0 cs = true := by
        have : okFrom c (ch :: cs) = okFrom 0 cs := by
          simp only [okFrom, if_neg hch]
        rw [← this]
        exact hok
      have hstep : collapseAux c (ch :: cs) = emitRun c ++ ch :: collapseAux 0 cs := by
        simp [collapseAux, hch]
      rw [hstep, ih 0 (by omega) hok2]
      simp only [emitRun]
      rw [if_neg (by omega)]
      simp

theorem collapseNl_idem (s : Str) : collapseNl (collapseNl s) = collapseNl s := by
  unfold collapseNl
  rw [collapseAux_of_okFrom _ 0 (by omega) (collapseAux_okFrom s 0)]
  rfl

theorem pass1Line_fix (l0 l : Str) (h : pass1Line l0 = some l) :
    pass1Line l = some l := by
  simp only [pass1Line] at h ⊢
  split at h
  · have hl : l = [] := (Option.some.inj h).symm
    subst hl
    rfl
  · split at h
    · exact Option.noConfusion h
    · next h1 h2 =>
      have hl : l = l0 := (Option.some.inj h).symm
      subst hl
      rw [if_neg h1, if_neg h2]

theorem pass1Line_out (a l : Str) (h : pass1Line a = some l) :
    l = [] ∨ l = a := by
  simp only [pass1Line] at h
  split at h
  · exact Or.inl (Option.some.inj h).symm
  · split at h
    · exact Option.noConfusion h
    · exact Or.inr (Option.some.inj h).symm

theorem filterMap_fix_id (L : List Str)
    (h : ∀ l ∈ L, pass1Line l = some l) : L.filterMap pass1Line = L := by
  induction L with
  | nil => rfl
  | cons l ls ih =>
    rw [List.filterMap_cons, h l (List.mem_cons_self _ _),
      ih (fun x hx => h x (List.mem_cons_of_mem _ hx))]

theorem mem_cleanedOf_fix (t : Str) (l : Str) (hl : l ∈ cleanedOf t) :
    pass1Line l = some l := by
  obtain ⟨a, _, ha⟩ := List.mem_filterMap.mp hl
  exact pass1Line_fix a l ha

theorem mem_cleanedOf_no_nl (t : Str) (l : Str) (hl : l ∈ cleanedOf t) :
    '\n' ∉ l := by
  obtain ⟨a, hmem, ha⟩ := List.mem_filterMap.mp hl
  rcases pass1Line_out a l ha with rfl | rfl
  · simp
  · exact splitLines_no_nl t l hmem

theorem mem_splitLines_joinLines (L : List Str)
    (hno : ∀ l ∈ L, '\n' ∉ l) (x : Str)
    (hx : x ∈ splitLines (joinLines L)) : x = [] ∨ x ∈ L := by
  cases L with
  | nil =>
    left
    simpa [joinLines, splitLines] using hx
  | cons k ks =>
    right
    rwa [splitLines_joinLines (k :: ks) (by simp) hno] at hx

theorem countTrim_splitLines_joinLines (L : List Str)
    (hno : ∀ l ∈ L, '\n' ∉ l) (v : Str) (hv : v ≠ []) :
    countTrim (splitLines (joinLines L)) v ≤ countTrim L v := by
  cases L with
  | nil =>
    have : countTrim (splitLines (joinLines ([] : List Str))) v = 0 := by
      simp only [joinLines, splitLines, countTrim, List.filter]
      have : (jsTrim [] == v) = false := by
        cases v with
        | nil => exact absurd rfl hv
        | cons a as => rfl
      rw [this]
      rfl
    omega
  | cons k ks =>
    rw [splitLines_joinLines (k :: ks) (by simp) hno]

theorem isCapsHeader_ne_nil (v : Str) (h : isCapsHeader v = true) : v ≠ [] := by
  unfold isCapsHeader at h
  rw [Bool.and_eq_true, Bool.and_eq_true] at h
  have := decide_eq_true_eq.mp h.1.1
  intro he
  rw [he] at this
  simp at this

theorem countTrim_keptOf_le (t : Str) (v : Str)
    (hcaps : isCapsHeader v = true) : countTrim (keptOf t) v ≤ 4 := by
  by_cases h5 : 5 ≤ countTrim (cleanedOf t) v
  · have hz : countTrim (keptOf t) v = 0 := by
      unfold countTrim
      rw [List.length_eq_zero, List.filter_eq_nil_iff]
      intro l' hl'
      have hk := (List.mem_filter.mp hl').2
      intro hbeq
      have hv : jsTrim l' = v := by simpa using hbeq
      rw [hv, hcaps] at hk
      simp at hk
      omega
    omega
  · have := countTrim_filter_le
      (fun l => !(isCapsHeader (jsTrim l) &&
        decide (5 ≤ countTrim (cleanedOf t) (jsTrim l))))
      (cleanedOf t) v
    unfold keptOf
    omega

theorem cleanPdfText_fix (u : Str)
    (h1 : ∀ l ∈ splitLines u, pass1Line l = some l)
    (h2 : ∀ l ∈ splitLines u, isCapsHeader (jsTrim l) = true →
      countTrim (splitLines u) (jsTrim l) ≤ 4)
    (h3 : collapseNl u = u) :
    cleanPdfText u = u := by
  unfold cleanPdfText keptOf cleanedOf
  rw [filterMap_fix_id _ h1]
  have hfilter : (splitLines u).filter
      (fun l => !(isCapsHeader (jsTrim l) &&
        decide (5 ≤ countTrim (splitLines u) (jsTrim l)))) = splitLines u := by
    apply List.filter_eq_self.mpr
    intro l hl
    by_cases hcaps : isCapsHeader (jsTrim l) = true
    · have hb := h2 l hl hcaps
      simp only [hcaps, Bool.true_and, Bool.not_eq_true', decide_eq_false_iff_not]
      omega
    · rw [show isCapsHeader (jsTrim l) = false from Bool.eq_false_iff.mpr hcaps]
      simp
  rw [hfilter, joinLines_splitLines, h3]

theorem keptOf_no_nl (t : Str) (x : Str) (hx : x ∈ keptOf t) : '\n' ∉ x :=
  mem_cleanedOf_no_nl t x (List.mem_filter.mp hx).1

theorem mem_clean_out (t : Str) (l : Str)
    (hl : l ∈ splitLines (cleanPdfText t)) : l = [] ∨ l ∈ keptOf t := by
  unfold cleanPdfText at hl
  rcases mem_splitLines_collapseNl _ _ hl with rfl | hl2
  · exact Or.inl rfl
  · exact mem_splitLines_joinLines (keptOf t) (keptOf_no_nl t) l hl2

theorem clean_out_line_fix (t : Str) (l : Str)
    (hl : l ∈ splitLines (cleanPdfText t)) : pass1Line l = some l := by
  rcases mem_clean_out t l hl with rfl | h2
  · rfl
  · exact mem_cleanedOf_fix t l (List.mem_filter.mp h2).1

theorem clean_out_caps_bound (t : Str) (l : Str)
    (hl : l ∈ splitLines (cleanPdfText t))
    (hcaps : isCapsHeader (jsTrim l) = true) :
    countTrim (splitLines (cleanPdfText t)) (jsTrim l) ≤ 4 := by
  have hv : jsTrim l ≠ [] := isCapsHeader_ne_nil _ hcaps
  unfold cleanPdfText
  rw [countTrim_collapseNl _ _ hv]
  have h1 := countTrim_splitLines_joinLines (keptOf t) (keptOf_no_nl t)
    (jsTrim l) hv
  have h2 := countTrim_keptOf_le t (jsTrim l) hcaps
  omega

theorem clean_out_collapse (t : Str) :
    collapseNl (cleanPdfText t) = cleanPdfText t := by
  unfold cleanPdfText
  exact collapseNl_idem _

/-- C6: `cleanPdfText` is idempotent — normalizing already-normalized
text returns it unchanged: the kept lines are fixed points of the
line-level pass, every caps-header trim class that survives the
repeated-title removal has multiplicity at most 4, and the blank-run
collapse is idempotent. -/
theorem C6_cleanPdfText_idempotent (t : Str) :
    cleanPdfText (cleanPdfText t) = cleanPdfText t :=
  cleanPdfText_fix (cleanPdfText t) (clean_out_line_fix t)
    (clean_out_caps_bound t) (clean_out_collapse t)
